import Mathlib

/-!
Verification of the balance-reconciliation core of the splits SDK.

The TypeScript source (utils/balances) is shallowly embedded: JavaScript
objects used as string-keyed mappings become association lists (`AMap`) with
JavaScript assignment semantics (`insertA` updates in place or appends),
`bigint` amounts become `Nat` (the spec restricts raw amounts to non-negative
integers), `undefined`-able values become `Option`, and code paths that can
throw become `Except String`.  Network responses (multicall results, Alchemy
pages) are passed in as explicit arguments, mirroring the data the awaited
calls return.
-/

namespace SplitsSdk

/-- Formatted balance entry `{rawAmount, formattedAmount, symbol, decimals}`
(the `FormattedTokenBalances` value type of the source). -/
structure FormattedTokenBalance where
  rawAmount : Nat
  formattedAmount : String
  symbol : String
  decimals : Nat
deriving DecidableEq, Repr

/-- Subgraph balance entry `{symbol, decimals, amount}` (the `IBalance` value
type used by `mergeBalances`). -/
structure IBalanceEntry where
  symbol : String
  decimals : Nat
  amount : Nat
deriving DecidableEq, Repr

/-- Token metadata `{address, symbol, decimals}` (the `Token` type; `symbol`
and `decimals` are optional, mirroring the `undefined` checks in the
source). -/
structure Token where
  address : String
  symbol : Option String
  decimals : Option Nat
deriving DecidableEq, Repr

/-- A JavaScript object used as a string-keyed mapping, embedded as an
association list in key-insertion order. -/
abbrev AMap (α : Type) : Type := List (String × α)

/-- Lookup in an `AMap` (property read `m[k]`). -/
def lookupA {α : Type} : AMap α → String → Option α
  | [], _ => none
  | (k', v) :: rest, k => if k' = k then some v else lookupA rest k

/-- Insert in an `AMap` (property write `m[k] = v`): updates the existing key
in place, otherwise appends the new key at the end. -/
def insertA {α : Type} : AMap α → String → α → AMap α
  | [], k, v => [(k, v)]
  | (k', v') :: rest, k, v =>
    if k' = k then (k', v) :: rest else (k', v') :: insertA rest k v

/-- The keys of an `AMap`, in insertion order. -/
def keysA {α : Type} (m : AMap α) : List String := m.map Prod.fst

/-- The `zeroAddress` sentinel of viem: the native-currency token
identifier. -/
def zeroAddress : String := "0x0000000000000000000000000000000000000000"

/-- The constant `ZERO = BigInt(0)` from the source's constants. -/
def ZERO : Nat := 0

/-- Modelled from the spec: the repository's `fromBigIntToTokenValue` helper
(defined in the utils barrel, which is not among the provided sources) renders
`rawAmount / 10^decimals` as a decimal string. -/
def fromBigIntToTokenValue (amount : Nat) (decimals : Nat) : String :=
  let digits := toString amount
  let padded :=
    if digits.length ≤ decimals then
      String.mk (List.replicate (decimals + 1 - digits.length) '0') ++ digits
    else digits
  let intLen := padded.length - decimals
  if decimals = 0 then padded
  else padded.take intLen ++ "." ++ padded.drop intLen

/-- Lowercases the letters occurring in hexadecimal addresses (`A`–`F` and the
`X` of a `0X` prefix). -/
def lowerHexChar (c : Char) : Char :=
  if c = 'A' then 'a'
  else if c = 'B' then 'b'
  else if c = 'C' then 'c'
  else if c = 'D' then 'd'
  else if c = 'E' then 'e'
  else if c = 'F' then 'f'
  else if c = 'X' then 'x'
  else c

/-- Modelled from the spec: viem's `getAddress` (an external collaborator, not
part of the provided sources) normalizes an address to its canonical
checksummed form; equality of addresses is case-insensitive at the wire level.
The canonical form is modelled as the lowercase representative of the
case-insensitive class (the EIP-55 mixed-case recasing is keccak-derived and
irrelevant here; only canonicality matters). -/
def getAddress (s : String) : String := String.mk (s.data.map lowerHexChar)

/-- The `mergeWith` customizer of `mergeBalances`: first-seen symbol/decimals,
summed amounts (`o` is `undefined` when the accumulator lacks the key). -/
def mergeBalancesCustomizer (o : Option IBalanceEntry) (s : IBalanceEntry) :
    IBalanceEntry :=
  { symbol := match o with | some oe => oe.symbol | none => s.symbol
    decimals := match o with | some oe => oe.decimals | none => s.decimals
    amount := (match o with | some oe => oe.amount | none => ZERO) + s.amount }

/-- One key of one source merged into the accumulator by lodash `mergeWith`
with the `mergeBalances` customizer. -/
def mergeBalancesStep (m : AMap IBalanceEntry) (kv : String × IBalanceEntry) :
    AMap IBalanceEntry :=
  insertA m kv.1 (mergeBalancesCustomizer (lookupA m kv.1) kv.2)

/-- One source object merged into the accumulator (lodash `mergeWith` walks
the source's keys in insertion order). -/
def mergeBalancesSource (m : AMap IBalanceEntry) (source : AMap IBalanceEntry) :
    AMap IBalanceEntry :=
  source.foldl mergeBalancesStep m

/-- `mergeBalances`: lodash `mergeWith({}, ...balances, customizer)` over the
`IBalance` shape. -/
def mergeBalances (balances : List (AMap IBalanceEntry)) : AMap IBalanceEntry :=
  balances.foldl mergeBalancesSource []

/-- The `mergeWith` customizer of `mergeFormattedTokenBalances`: first-seen
symbol/decimals, summed raw amounts, formatted amount recomputed from the
sum. -/
def mergeFormattedCustomizer (o : Option FormattedTokenBalance)
    (s : FormattedTokenBalance) : FormattedTokenBalance :=
  let decimals := match o with | some oe => oe.decimals | none => s.decimals
  let rawAmount :=
    (match o with | some oe => oe.rawAmount | none => ZERO) + s.rawAmount
  let formattedAmount := fromBigIntToTokenValue rawAmount decimals
  { symbol := match o with | some oe => oe.symbol | none => s.symbol
    decimals := decimals
    rawAmount := rawAmount
    formattedAmount := formattedAmount }

/-- One key of one source merged into the accumulator by lodash `mergeWith`
with the `mergeFormattedTokenBalances` customizer. -/
def mergeFormattedStep (m : AMap FormattedTokenBalance)
    (kv : String × FormattedTokenBalance) : AMap FormattedTokenBalance :=
  insertA m kv.1 (mergeFormattedCustomizer (lookupA m kv.1) kv.2)

/-- One source object merged into the accumulator. -/
def mergeFormattedSource (m : AMap FormattedTokenBalance)
    (source : AMap FormattedTokenBalance) : AMap FormattedTokenBalance :=
  source.foldl mergeFormattedStep m

/-- `mergeFormattedTokenBalances`: lodash
`mergeWith({}, ...balances, customizer)` over the `FormattedTokenBalances`
shape. -/
def mergeFormattedTokenBalances (balances : List (AMap FormattedTokenBalance)) :
    AMap FormattedTokenBalance :=
  balances.foldl mergeFormattedSource []

/-- Step of `fetchTokenData`'s result loop: a token is recorded exactly when
both its `symbol` and its `decimals` multicall results are defined.  The flat
multicall response (symbol at index `2*i`, decimals at `2*i + 1`) is embedded
as one `(symbol result, decimals result)` pair per filtered token. -/
def tokenDataStep (tokenData : AMap Token)
    (item : String × (Option String × Option Nat)) : AMap Token :=
  match item.2.1, item.2.2 with
  | some symbol, some decimals =>
    insertA tokenData item.1 ⟨item.1, some symbol, some decimals⟩
  | _, _ => tokenData

/-- `fetchTokenData`: filters out the zero address, then records per filtered
token the symbol/decimals results when both are defined. -/
def fetchTokenData (tokens : List String)
    (multicallResponse : List (Option String × Option Nat)) : AMap Token :=
  let filteredTokens := tokens.filter (fun token => token ≠ zeroAddress)
  (filteredTokens.zip multicallResponse).foldl tokenDataStep []

/-- Loop body of `processBalanceMulticallResponse`: skip undefined results;
native sentinel gets decimals 18 and the chain's native symbol (default
`"ETH"`); ERC-20 tokens need a metadata entry with both fields defined. -/
def plainBalanceStep (chainInfoNativeSymbol : Nat → Option String)
    (chainId : Nat) (tokenData : AMap Token)
    (balances : AMap FormattedTokenBalance) (item : String × Option Nat) :
    AMap FormattedTokenBalance :=
  let token := item.1
  match item.2 with
  | none => balances
  | some balance =>
    if token = zeroAddress then
      let decimals := 18
      let symbol := (chainInfoNativeSymbol chainId).getD "ETH"
      insertA balances zeroAddress
        ⟨balance, fromBigIntToTokenValue balance decimals, symbol, decimals⟩
    else
      match lookupA tokenData token with
      | none => balances
      | some td =>
        match td.symbol, td.decimals with
        | some symbol, some decimals =>
          insertA balances token
            ⟨balance, fromBigIntToTokenValue balance decimals, symbol, decimals⟩
        | _, _ => balances

/-- `processBalanceMulticallResponse`, the plain account-balance reducer.
`CHAIN_INFO[chainId]?.nativeCurrency.symbol` is embedded as the function
argument `chainInfoNativeSymbol`. -/
def processBalanceMulticallResponse (chainInfoNativeSymbol : Nat → Option String)
    (chainId : Nat) (fullTokenList : List String) (tokenData : AMap Token)
    (multicallResponse : List (Option Nat))
    (balances : AMap FormattedTokenBalance) : AMap FormattedTokenBalance :=
  (fullTokenList.zip multicallResponse).foldl
    (plainBalanceStep chainInfoNativeSymbol chainId tokenData) balances

/-- The symbol/decimals block shared by both branches of
`processSplitBalanceMulticallResponse`: native sentinel gets decimals 18 and
the chain symbol (default `"ETH"`), ERC-20 tokens need full metadata,
otherwise the loop body returns early (`none`). -/
def splitTokenMeta (chainInfoNativeSymbol : Nat → Option String) (chainId : Nat)
    (tokenData : AMap Token) (token : String) : Option (String × Nat) :=
  if token = zeroAddress then
    some ((chainInfoNativeSymbol chainId).getD "ETH", 18)
  else
    match lookupA tokenData token with
    | none => none
    | some td =>
      match td.symbol, td.decimals with
      | some symbol, some decimals => some (symbol, decimals)
      | _, _ => none

/-- Loop body of `processSplitBalanceMulticallResponse` for `splitV1`: the
single result may be undefined, in which case the dust guard
`balance > BigInt(2)` is `false` (JavaScript `undefined > 2n`), so nothing is
emitted. -/
def splitV1BalanceStep (chainInfoNativeSymbol : Nat → Option String)
    (chainId : Nat) (tokenData : AMap Token)
    (balances : AMap FormattedTokenBalance) (item : String × Option Nat) :
    AMap FormattedTokenBalance :=
  let token := item.1
  match splitTokenMeta chainInfoNativeSymbol chainId tokenData token with
  | none => balances
  | some (symbol, decimals) =>
    match item.2 with
    | none => balances
    | some balance =>
      if 2 < balance then
        insertA balances token
          ⟨balance, fromBigIntToTokenValue balance decimals, symbol, decimals⟩
      else balances

/-- `processSplitBalanceMulticallResponse` specialized to `type = 'splitV1'`. -/
def processSplitBalanceMulticallResponseV1
    (chainInfoNativeSymbol : Nat → Option String) (chainId : Nat)
    (fullTokenList : List String) (tokenData : AMap Token)
    (multicallResponse : List (Option Nat))
    (balances : AMap FormattedTokenBalance) : AMap FormattedTokenBalance :=
  (fullTokenList.zip multicallResponse).foldl
    (splitV1BalanceStep chainInfoNativeSymbol chainId tokenData) balances

/-- Loop body of `processSplitBalanceMulticallResponse` for `splitV2`: the
result is destructured as `[splitBalance, warehouseBalance]` BEFORE any
undefined check, so a wholly undefined result (reverted call) throws a
`TypeError`; a defined result whose components are undefined is skipped; both
components defined are summed and pass through the metadata and dust logic. -/
def splitV2BalanceStep (chainInfoNativeSymbol : Nat → Option String)
    (chainId : Nat) (tokenData : AMap Token)
    (balances : AMap FormattedTokenBalance)
    (item : String × Option (Option Nat × Option Nat)) :
    Except String (AMap FormattedTokenBalance) :=
  let token := item.1
  match item.2 with
  | none =>
    Except.error "TypeError: cannot destructure an undefined multicall result"
  | some (splitBalance, warehouseBalance) =>
    match splitBalance, warehouseBalance with
    | some sb, some wb =>
      let balance := sb + wb
      match splitTokenMeta chainInfoNativeSymbol chainId tokenData token with
      | none => Except.ok balances
      | some (symbol, decimals) =>
        if 2 < balance then
          Except.ok (insertA balances token
            ⟨balance, fromBigIntToTokenValue balance decimals, symbol, decimals⟩)
        else Except.ok balances
    | _, _ => Except.ok balances

/-- `processSplitBalanceMulticallResponse` specialized to `type = 'splitV2'`;
the possible `TypeError` is surfaced as `Except.error`. -/
def processSplitBalanceMulticallResponseV2
    (chainInfoNativeSymbol : Nat → Option String) (chainId : Nat)
    (fullTokenList : List String) (tokenData : AMap Token)
    (multicallResponse : List (Option (Option Nat × Option Nat)))
    (balances : AMap FormattedTokenBalance) :
    Except String (AMap FormattedTokenBalance) :=
  (fullTokenList.zip multicallResponse).foldlM
    (splitV2BalanceStep chainInfoNativeSymbol chainId tokenData) balances

/-- `fetchActiveBalances`: metadata for the non-zero tokens plus the balance
multicall, reduced into a fresh mapping.  Note the source applies no address
normalization here: `fullTokenList` is used as given. -/
def fetchActiveBalances (chainInfoNativeSymbol : Nat → Option String)
    (chainId : Nat) (fullTokenList : List String)
    (tokenDataResponse : List (Option String × Option Nat))
    (multicallResponse : List (Option Nat)) : AMap FormattedTokenBalance :=
  let erc20Tokens := fullTokenList.filter (fun token => token ≠ zeroAddress)
  let tokenData := fetchTokenData erc20Tokens tokenDataResponse
  processBalanceMulticallResponse chainInfoNativeSymbol chainId fullTokenList
    tokenData multicallResponse []

/-- `fetchSplitActiveBalances` with `type = 'splitV1'`: the token list is
normalized with `getAddress` before any use. -/
def fetchSplitActiveBalancesV1 (chainInfoNativeSymbol : Nat → Option String)
    (chainId : Nat) (fullTokenList : List String)
    (tokenDataResponse : List (Option String × Option Nat))
    (multicallResponse : List (Option Nat)) : AMap FormattedTokenBalance :=
  let formattedTokenList := fullTokenList.map getAddress
  let erc20Tokens := formattedTokenList.filter (fun token => token ≠ zeroAddress)
  let tokenData := fetchTokenData erc20Tokens tokenDataResponse
  processSplitBalanceMulticallResponseV1 chainInfoNativeSymbol chainId
    formattedTokenList tokenData multicallResponse []

/-- `fetchSplitActiveBalances` with `type = 'splitV2'`. -/
def fetchSplitActiveBalancesV2 (chainInfoNativeSymbol : Nat → Option String)
    (chainId : Nat) (fullTokenList : List String)
    (tokenDataResponse : List (Option String × Option Nat))
    (multicallResponse : List (Option (Option Nat × Option Nat))) :
    Except String (AMap FormattedTokenBalance) :=
  let formattedTokenList := fullTokenList.map getAddress
  let erc20Tokens := formattedTokenList.filter (fun token => token ≠ zeroAddress)
  let tokenData := fetchTokenData erc20Tokens tokenDataResponse
  processSplitBalanceMulticallResponseV2 chainInfoNativeSymbol chainId
    formattedTokenList tokenData multicallResponse []

/-- One response of the external balance API:
`{tokenBalances: [{contractAddress, tokenBalance}], pageKey}`. -/
structure AlchemyPage where
  tokenBalances : List (String × Nat)
  pageKey : String
deriving DecidableEq, Repr

/-- Observable outcome of `fetchContractBalancesWithAlchemy`: how many
native-balance requests and token-balance (page) requests were issued, and the
accumulated balance mapping. -/
structure FetchTrace where
  nativeRequests : Nat
  tokenRequests : Nat
  balances : AMap FormattedTokenBalance
deriving DecidableEq, Repr

/-- One item of a page's `tokenBalances` processed into the accumulator: the
metadata oracle (standing for the per-page `fetchTokenData` call) is consulted
by RAW contract address; a resolvable item is written under the
`getAddress`-normalized key. -/
def alchemyTokenStep (erc20TokenData : AMap Token)
    (m : AMap FormattedTokenBalance) (item : String × Nat) :
    AMap FormattedTokenBalance :=
  match lookupA erc20TokenData item.1 with
  | none => m
  | some td =>
    let formattedAddress := getAddress item.1
    let rawAmount := item.2
    let symbol := td.symbol.getD "UNKNOWN"
    let decimals := td.decimals.getD 18
    insertA m formattedAddress
      ⟨rawAmount, fromBigIntToTokenValue rawAmount decimals, symbol, decimals⟩

/-- Body of one iteration of the `do`/`while` loop of
`fetchContractBalancesWithAlchemy`: on the first iteration (empty incoming
`pageKey`) the native entry is written with decimals 18 and the chain symbol
(default `"ETH"`); then each page item with resolvable metadata is processed
by `alchemyTokenStep`. -/
def alchemyProcessPage (chainInfoNativeSymbol : Nat → Option String)
    (chainId : Nat) (erc20TokenData : AMap Token) (isFirst : Bool)
    (ethBalance : Nat) (page : AlchemyPage)
    (balances : AMap FormattedTokenBalance) : AMap FormattedTokenBalance :=
  let balances :=
    if isFirst then
      insertA balances zeroAddress
        ⟨ethBalance, fromBigIntToTokenValue ethBalance 18,
          (chainInfoNativeSymbol chainId).getD "ETH", 18⟩
    else balances
  page.tokenBalances.foldl (alchemyTokenStep erc20TokenData) balances

/-- The cursor loop of `fetchContractBalancesWithAlchemy`.  `api n` is the
response to the `n`-th `alchemy_getTokenBalances` request; the loop continues
while the returned `pageKey` is non-empty.  `fuel` bounds the recursion in the
embedding only — `none` means the loop was still running after `fuel`
iterations. -/
def alchemyLoop (chainInfoNativeSymbol : Nat → Option String) (chainId : Nat)
    (erc20TokenData : AMap Token) (ethBalance : Nat)
    (api : Nat → AlchemyPage) :
    Nat → Nat → FetchTrace → Option FetchTrace
  | 0, _, _ => none
  | fuel + 1, n, trace =>
    let page := api n
    let trace' : FetchTrace :=
      { nativeRequests := trace.nativeRequests + (if n = 0 then 1 else 0)
        tokenRequests := trace.tokenRequests + 1
        balances :=
          alchemyProcessPage chainInfoNativeSymbol chainId erc20TokenData
            (n = 0) ethBalance page trace.balances }
    if page.pageKey = "" then some trace'
    else
      alchemyLoop chainInfoNativeSymbol chainId erc20TokenData ethBalance api
        fuel (n + 1) trace'

/-- `fetchContractBalancesWithAlchemy`, starting from a fresh mapping and no
requests issued. -/
def fetchContractBalancesWithAlchemy
    (chainInfoNativeSymbol : Nat → Option String) (chainId : Nat)
    (erc20TokenData : AMap Token) (ethBalance : Nat) (api : Nat → AlchemyPage)
    (fuel : Nat) : Option FetchTrace :=
  alchemyLoop chainInfoNativeSymbol chainId erc20TokenData ethBalance api fuel
    0 ⟨0, 0, []⟩

/-- Generic shape of every reducer loop body: an emission decision `ent` per
`(token, result)` item; an emitted entry is inserted under the token key,
otherwise the accumulator is unchanged. -/
def stepOf {β α : Type} (ent : String → β → Option α) (m : AMap α)
    (x : String × β) : AMap α :=
  match ent x.1 x.2 with
  | some e => insertA m x.1 e
  | none => m

/-- What a reducer fold does to the value observed at one key `k`: items with
another key leave it alone, an emitting item with key `k` overwrites it, a
non-emitting item with key `k` leaves it alone. -/
def applyEnt {β α : Type} (ent : String → β → Option α) (k : String)
    (acc : Option α) (x : String × β) : Option α :=
  if x.1 = k then
    match ent x.1 x.2 with
    | some e => some e
    | none => acc
  else acc

/-- Emission decision of `plainBalanceStep`. -/
def plainEnt (chainInfoNativeSymbol : Nat → Option String) (chainId : Nat)
    (tokenData : AMap Token) (token : String) (result : Option Nat) :
    Option FormattedTokenBalance :=
  match result with
  | none => none
  | some balance =>
    if token = zeroAddress then
      some ⟨balance, fromBigIntToTokenValue balance 18,
        (chainInfoNativeSymbol chainId).getD "ETH", 18⟩
    else
      match lookupA tokenData token with
      | none => none
      | some td =>
        match td.symbol, td.decimals with
        | some symbol, some decimals =>
          some ⟨balance, fromBigIntToTokenValue balance decimals, symbol,
            decimals⟩
        | _, _ => none

/-- Emission decision of `splitV1BalanceStep`. -/
def splitV1Ent (chainInfoNativeSymbol : Nat → Option String) (chainId : Nat)
    (tokenData : AMap Token) (token : String) (result : Option Nat) :
    Option FormattedTokenBalance :=
  match splitTokenMeta chainInfoNativeSymbol chainId tokenData token with
  | none => none
  | some (symbol, decimals) =>
    match result with
    | none => none
    | some balance =>
      if 2 < balance then
        some ⟨balance, fromBigIntToTokenValue balance decimals, symbol,
          decimals⟩
      else none

/-- Emission decision of `splitV2BalanceStep` on results that do not throw. -/
def splitV2Ent (chainInfoNativeSymbol : Nat → Option String) (chainId : Nat)
    (tokenData : AMap Token) (token : String)
    (result : Option (Option Nat × Option Nat)) :
    Option FormattedTokenBalance :=
  match result with
  | none => none
  | some (splitBalance, warehouseBalance) =>
    match splitBalance, warehouseBalance with
    | some sb, some wb =>
      match splitTokenMeta chainInfoNativeSymbol chainId tokenData token with
      | none => none
      | some (symbol, decimals) =>
        if 2 < sb + wb then
          some ⟨sb + wb, fromBigIntToTokenValue (sb + wb) decimals, symbol,
            decimals⟩
        else none
    | _, _ => none

/-- Emission decision of `tokenDataStep`. -/
def tokenDataEnt (token : String) (result : Option String × Option Nat) :
    Option Token :=
  match result.1, result.2 with
  | some symbol, some decimals => some ⟨token, some symbol, some decimals⟩
  | _, _ => none

/-- The raw amount an input mapping contributes at key `k`: its entry's
`rawAmount` when it contains `k`, zero otherwise. -/
def rawAmountAt (b : AMap FormattedTokenBalance) (k : String) : Nat :=
  match lookupA b k with
  | some e => e.rawAmount
  | none => 0

/-- The sum of the raw amounts contributed at key `k` by a list of input
mappings. -/
def sumRawAmounts (bs : List (AMap FormattedTokenBalance)) (k : String) : Nat :=
  (bs.map (fun b => rawAmountAt b k)).sum

/-- The entry of the first input mapping that contains key `k`. -/
def firstEntryFor (bs : List (AMap FormattedTokenBalance)) (k : String) :
    Option FormattedTokenBalance :=
  bs.findSome? (fun b => lookupA b k)

/-- The `amount` an input `IBalance` mapping contributes at key `k`. -/
def amountAt (b : AMap IBalanceEntry) (k : String) : Nat :=
  match lookupA b k with
  | some e => e.amount
  | none => 0

/-- The sum of the amounts contributed at key `k` by a list of `IBalance`
mappings. -/
def sumAmounts (bs : List (AMap IBalanceEntry)) (k : String) : Nat :=
  (bs.map (fun b => amountAt b k)).sum

/-- The entry of the first input `IBalance` mapping that contains key `k`. -/
def firstIEntryFor (bs : List (AMap IBalanceEntry)) (k : String) :
    Option IBalanceEntry :=
  bs.findSome? (fun b => lookupA b k)

/-- Two optional entries carry the same symbol and decimals whenever both are
present. -/
def metaAgrees (o o' : Option FormattedTokenBalance) : Prop :=
  match o, o' with
  | some e, some e' => e.symbol = e'.symbol ∧ e.decimals = e'.decimals
  | _, _ => True

instance metaAgreesDecidable (o o' : Option FormattedTokenBalance) :
    Decidable (metaAgrees o o') :=
  match o, o' with
  | some e, some e' =>
    inferInstanceAs (Decidable (e.symbol = e'.symbol ∧ e.decimals = e'.decimals))
  | some _, none => inferInstanceAs (Decidable True)
  | none, _ => inferInstanceAs (Decidable True)

/-- All input mappings agree on symbol and decimals wherever they share a
key. -/
def agreeOnMetadata (bs : List (AMap FormattedTokenBalance)) : Prop :=
  ∀ b ∈ bs, ∀ b' ∈ bs, ∀ k ∈ keysA b,
    metaAgrees (lookupA b k) (lookupA b' k)

instance agreeOnMetadataDecidable (bs : List (AMap FormattedTokenBalance)) :
    Decidable (agreeOnMetadata bs) :=
  inferInstanceAs (Decidable (∀ b ∈ bs, ∀ b' ∈ bs, ∀ k ∈ keysA b,
    metaAgrees (lookupA b k) (lookupA b' k)))

/-- The ERC-20 metadata condition of `processBalanceMulticallResponse`: the
token is the native sentinel, or its metadata entry exists with both fields
defined. -/
def plainMetaOk (td : AMap Token) (k : String) : Bool :=
  k = zeroAddress ||
    (match lookupA td k with
    | some tok => tok.symbol.isSome && tok.decimals.isSome
    | none => false)

theorem lookupA_insertA_self {α : Type} (m : AMap α) (k : String) (v : α) :
    lookupA (insertA m k v) k = some v := by
  induction m with
  | nil => simp [insertA, lookupA]
  | cons hd tl ih =>
    obtain ⟨k', v'⟩ := hd
    by_cases h : k' = k
    · simp [insertA, lookupA, h]
    · simp [insertA, lookupA, h, ih]

theorem lookupA_insertA_ne {α : Type} (m : AMap α) {k k' : String} (v : α)
    (h : k ≠ k') : lookupA (insertA m k v) k' = lookupA m k' := by
  induction m with
  | nil => simp [insertA, lookupA, h]
  | cons hd tl ih =>
    obtain ⟨k₀, v₀⟩ := hd
    by_cases h₀ : k₀ = k
    · subst h₀
      simp [insertA, lookupA, h, ih]
    · by_cases h₁ : k₀ = k'
      · simp [insertA, lookupA, h₀, h₁, Ne.symm h]
      · simp [insertA, lookupA, h₀, h₁, ih]

theorem mem_keysA_insertA {α : Type} {m : AMap α} {k a : String} {v : α}
    (h : a ∈ keysA (insertA m k v)) : a ∈ keysA m ∨ a = k := by
  induction m with
  | nil =>
    simp [insertA, keysA] at h
    exact Or.inr h
  | cons hd tl ih =>
    obtain ⟨k₀, v₀⟩ := hd
    by_cases h₀ : k₀ = k
    · simp only [insertA, if_pos h₀, keysA, List.map_cons] at h ⊢
      exact Or.inl h
    · simp only [insertA, if_neg h₀, keysA, List.map_cons, List.mem_cons] at h ⊢
      rcases h with h | h
      · exact Or.inl (Or.inl h)
      · rcases ih h with h' | h'
        · exact Or.inl (Or.inr h')
        · exact Or.inr h'

theorem keysA_nodup_insertA {α : Type} {m : AMap α} (h : (keysA m).Nodup)
    (k : String) (v : α) : (keysA (insertA m k v)).Nodup := by
  induction m with
  | nil => simp [insertA, keysA]
  | cons hd tl ih =>
    obtain ⟨k₀, v₀⟩ := hd
    simp only [keysA, List.map_cons, List.nodup_cons] at h
    by_cases h₀ : k₀ = k
    · simp only [insertA, if_pos h₀, keysA, List.map_cons, List.nodup_cons]
      exact ⟨h.1, h.2⟩
    · simp only [insertA, if_neg h₀, keysA, List.map_cons, List.nodup_cons]
      refine ⟨?_, ih h.2⟩
      intro hmem
      rcases mem_keysA_insertA hmem with h' | h'
      · exact h.1 h'
      · exact h₀ h'

theorem lookupA_foldl_stepOf {β α : Type} (ent : String → β → Option α)
    (l : List (String × β)) (m : AMap α) (k : String) :
    lookupA (l.foldl (stepOf ent) m) k =
      l.foldl (applyEnt ent k) (lookupA m k) := by
  induction l generalizing m with
  | nil => rfl
  | cons x xs ih =>
    simp only [List.foldl_cons]
    rw [ih]
    congr 1
    obtain ⟨t, r⟩ := x
    by_cases h : t = k
    · subst h
      cases hent : ent t r with
      | none => simp [stepOf, applyEnt, hent]
      | some e => simp [stepOf, applyEnt, hent, lookupA_insertA_self]
    · cases hent : ent t r with
      | none => simp [stepOf, applyEnt, hent, h]
      | some e => simp [stepOf, applyEnt, hent, h, lookupA_insertA_ne _ _ h]

theorem foldl_applyEnt_of_forall_ne {β α : Type} (ent : String → β → Option α)
    (k : String) {l : List (String × β)} (acc : Option α)
    (h : ∀ x ∈ l, x.1 ≠ k) : l.foldl (applyEnt ent k) acc = acc := by
  induction l generalizing acc with
  | nil => rfl
  | cons x xs ih =>
    simp only [List.foldl_cons]
    rw [show applyEnt ent k acc x = acc from by
      simp [applyEnt, h x (List.mem_cons_self x xs)]]
    exact ih _ (fun y hy => h y (List.mem_cons_of_mem x hy))

theorem foldl_applyEnt_of_mem_nodup {β α : Type} (ent : String → β → Option α)
    {l : List (String × β)} {k : String} {r : β}
    (hnd : (l.map Prod.fst).Nodup) (hmem : (k, r) ∈ l) :
    l.foldl (applyEnt ent k) none = ent k r := by
  obtain ⟨l₁, l₂, rfl⟩ := List.append_of_mem hmem
  rw [List.map_append, List.map_cons] at hnd
  rw [List.nodup_append] at hnd
  have hk₂ : ∀ x ∈ l₂, x.1 ≠ k := by
    intro x hx hxk
    have hmm : x.1 ∈ l₂.map Prod.fst := List.mem_map_of_mem Prod.fst hx
    rw [hxk] at hmm
    exact (List.nodup_cons.mp hnd.2.1).1 hmm
  have hk₁ : ∀ x ∈ l₁, x.1 ≠ k := by
    intro x hx hxk
    have hmm : x.1 ∈ l₁.map Prod.fst := List.mem_map_of_mem Prod.fst hx
    rw [hxk] at hmm
    exact hnd.2.2 hmm (List.mem_cons_self _ _)
  rw [List.foldl_append, foldl_applyEnt_of_forall_ne ent k none hk₁,
    List.foldl_cons]
  have happ : applyEnt ent k none (k, r) = ent k r := by
    cases hent : ent k r <;> simp [applyEnt, hent]
  rw [happ]
  exact foldl_applyEnt_of_forall_ne ent k _ hk₂

theorem plainBalanceStep_eq (c : Nat → Option String) (ci : Nat)
    (td : AMap Token) (m : AMap FormattedTokenBalance)
    (x : String × Option Nat) :
    plainBalanceStep c ci td m x = stepOf (plainEnt c ci td) m x := by
  obtain ⟨t, r⟩ := x
  cases r with
  | none => rfl
  | some b =>
    by_cases h : t = zeroAddress
    · subst h
      simp [plainBalanceStep, plainEnt, stepOf]
    · simp only [plainBalanceStep, plainEnt, stepOf, if_neg h]
      cases lookupA td t with
      | none => rfl
      | some tok =>
        obtain ⟨a, s, d⟩ := tok
        cases s <;> cases d <;> rfl

theorem splitV1BalanceStep_eq (c : Nat → Option String) (ci : Nat)
    (td : AMap Token) (m : AMap FormattedTokenBalance)
    (x : String × Option Nat) :
    splitV1BalanceStep c ci td m x = stepOf (splitV1Ent c ci td) m x := by
  obtain ⟨t, r⟩ := x
  simp only [splitV1BalanceStep, splitV1Ent, stepOf]
  cases splitTokenMeta c ci td t with
  | none => rfl
  | some sd =>
    obtain ⟨s, d⟩ := sd
    cases r with
    | none => rfl
    | some b =>
      by_cases h : 2 < b
      · simp [h]
      · simp [h]

theorem tokenDataStep_eq (m : AMap Token)
    (x : String × (Option String × Option Nat)) :
    tokenDataStep m x = stepOf tokenDataEnt m x := by
  obtain ⟨t, sr, dr⟩ := x
  cases sr <;> cases dr <;> rfl

theorem splitV2BalanceStep_eq (c : Nat → Option String) (ci : Nat)
    (td : AMap Token) (m : AMap FormattedTokenBalance) (t : String)
    {r : Option (Option Nat × Option Nat)} (hr : r ≠ none) :
    splitV2BalanceStep c ci td m (t, r) =
      Except.ok (stepOf (splitV2Ent c ci td) m (t, r)) := by
  cases r with
  | none => exact absurd rfl hr
  | some p =>
    obtain ⟨sb, wb⟩ := p
    cases sb with
    | none => rfl
    | some sbv =>
      cases wb with
      | none => rfl
      | some wbv =>
        simp only [splitV2BalanceStep, splitV2Ent, stepOf]
        cases splitTokenMeta c ci td t with
        | none => rfl
        | some sd =>
          obtain ⟨s, d⟩ := sd
          by_cases h : 2 < sbv + wbv
          · simp [h]
          · simp [h]

theorem foldlM_splitV2_ok (c : Nat → Option String) (ci : Nat)
    (td : AMap Token)
    {l : List (String × Option (Option Nat × Option Nat))}
    (m : AMap FormattedTokenBalance) (h : ∀ x ∈ l, x.2 ≠ none) :
    l.foldlM (splitV2BalanceStep c ci td) m =
      Except.ok (l.foldl (stepOf (splitV2Ent c ci td)) m) := by
  induction l generalizing m with
  | nil => rfl
  | cons x xs ih =>
    obtain ⟨t, r⟩ := x
    have hr : r ≠ none := h (t, r) (List.mem_cons_self _ _)
    rw [List.foldlM_cons, splitV2BalanceStep_eq c ci td m t hr]
    simp only [List.foldl_cons]
    have hbind :
        (Except.ok (stepOf (splitV2Ent c ci td) m (t, r)) >>=
            fun b => xs.foldlM (splitV2BalanceStep c ci td) b) =
          xs.foldlM (splitV2BalanceStep c ci td)
            (stepOf (splitV2Ent c ci td) m (t, r)) := rfl
    rw [hbind]
    exact ih _ (fun y hy => h y (List.mem_cons_of_mem _ hy))

theorem lookupA_eq_none_of_not_mem {α : Type} {m : AMap α} {k : String}
    (h : k ∉ keysA m) : lookupA m k = none := by
  induction m with
  | nil => rfl
  | cons hd tl ih =>
    obtain ⟨k₀, v₀⟩ := hd
    simp only [keysA, List.map_cons, List.mem_cons, not_or] at h
    simp only [lookupA, if_neg (fun hh : k₀ = k => h.1 hh.symm)]
    exact ih h.2

theorem lookupA_mergeFormattedSource (acc src : AMap FormattedTokenBalance)
    (k : String) (hnd : (keysA src).Nodup) :
    lookupA (mergeFormattedSource acc src) k =
      match lookupA src k with
      | none => lookupA acc k
      | some s => some (mergeFormattedCustomizer (lookupA acc k) s) := by
  induction src generalizing acc with
  | nil => rfl
  | cons hd rest ih =>
    obtain ⟨t, v⟩ := hd
    simp only [keysA, List.map_cons, List.nodup_cons] at hnd
    simp only [mergeFormattedSource, List.foldl_cons] at ih ⊢
    rw [ih _ hnd.2]
    by_cases h : t = k
    · subst h
      have hrest : lookupA rest t = none := lookupA_eq_none_of_not_mem hnd.1
      simp [lookupA, hrest, mergeFormattedStep, lookupA_insertA_self]
    · simp only [lookupA, if_neg h, mergeFormattedStep,
        lookupA_insertA_ne _ _ h]

theorem lookupA_foldl_mergeFormattedSource
    (bs : List (AMap FormattedTokenBalance))
    (acc : AMap FormattedTokenBalance) (k : String)
    (hwf : ∀ b ∈ bs, (keysA b).Nodup) :
    lookupA (bs.foldl mergeFormattedSource acc) k =
      bs.foldl
        (fun o b =>
          match lookupA b k with
          | none => o
          | some s => some (mergeFormattedCustomizer o s))
        (lookupA acc k) := by
  induction bs generalizing acc with
  | nil => rfl
  | cons b rest ih =>
    simp only [List.foldl_cons]
    rw [ih _ (fun b' hb' => hwf b' (List.mem_cons_of_mem _ hb'))]
    rw [lookupA_mergeFormattedSource acc b k (hwf b (List.mem_cons_self _ _))]

theorem foldl_mergeCombine_some (rest : List (AMap FormattedTokenBalance))
    (k : String) (e : FormattedTokenBalance)
    (hfmt : e.formattedAmount = fromBigIntToTokenValue e.rawAmount e.decimals) :
    rest.foldl
        (fun o b =>
          match lookupA b k with
          | none => o
          | some s => some (mergeFormattedCustomizer o s))
        (some e) =
      some ⟨e.rawAmount + sumRawAmounts rest k,
        fromBigIntToTokenValue (e.rawAmount + sumRawAmounts rest k) e.decimals,
        e.symbol, e.decimals⟩ := by
  induction rest generalizing e with
  | nil =>
    obtain ⟨raw, fmt, sym, dec⟩ := e
    simp only [sumRawAmounts, List.map_nil, List.sum_nil, Nat.add_zero,
      List.foldl_nil]
    simp only at hfmt
    rw [hfmt]
  | cons b rest ih =>
    simp only [List.foldl_cons]
    cases hb : lookupA b k with
    | none =>
      rw [ih e hfmt]
      simp only [sumRawAmounts, List.map_cons, List.sum_cons, rawAmountAt, hb,
        Nat.zero_add]
    | some s =>
      have hred :
          (match some s with
            | none => some e
            | some s' => some (mergeFormattedCustomizer (some e) s')) =
            some (mergeFormattedCustomizer (some e) s) := rfl
      rw [hred]
      rw [ih (mergeFormattedCustomizer (some e) s) rfl]
      simp only [mergeFormattedCustomizer, sumRawAmounts, List.map_cons,
        List.sum_cons, rawAmountAt, hb]
      congr 1
      simp [Nat.add_assoc]

theorem lookupA_mergeFormattedTokenBalances
    (bs : List (AMap FormattedTokenBalance)) (k : String)
    (hwf : ∀ b ∈ bs, (keysA b).Nodup) :
    lookupA (mergeFormattedTokenBalances bs) k =
      match firstEntryFor bs k with
      | none => none
      | some e0 =>
        some ⟨sumRawAmounts bs k,
          fromBigIntToTokenValue (sumRawAmounts bs k) e0.decimals, e0.symbol,
          e0.decimals⟩ := by
  unfold mergeFormattedTokenBalances
  rw [lookupA_foldl_mergeFormattedSource bs [] k hwf]
  clear hwf
  induction bs with
  | nil => rfl
  | cons b rest ih =>
    simp only [List.foldl_cons]
    cases hb : lookupA b k with
    | none =>
      simp only [lookupA] at ih ⊢
      rw [ih]
      simp only [firstEntryFor, List.findSome?_cons, hb, sumRawAmounts,
        List.map_cons, List.sum_cons, rawAmountAt, Nat.zero_add]
    | some s =>
      simp only [lookupA]
      rw [foldl_mergeCombine_some rest k (mergeFormattedCustomizer none s) rfl]
      simp only [firstEntryFor, List.findSome?_cons, hb, sumRawAmounts,
        List.map_cons, List.sum_cons, rawAmountAt, mergeFormattedCustomizer,
        ZERO, Nat.zero_add]

theorem lookupA_mergeBalancesSource (acc src : AMap IBalanceEntry) (k : String)
    (hnd : (keysA src).Nodup) :
    lookupA (mergeBalancesSource acc src) k =
      match lookupA src k with
      | none => lookupA acc k
      | some s => some (mergeBalancesCustomizer (lookupA acc k) s) := by
  induction src generalizing acc with
  | nil => rfl
  | cons hd rest ih =>
    obtain ⟨t, v⟩ := hd
    simp only [keysA, List.map_cons, List.nodup_cons] at hnd
    simp only [mergeBalancesSource, List.foldl_cons] at ih ⊢
    rw [ih _ hnd.2]
    by_cases h : t = k
    · subst h
      have hrest : lookupA rest t = none := lookupA_eq_none_of_not_mem hnd.1
      simp [lookupA, hrest, mergeBalancesStep, lookupA_insertA_self]
    · simp only [lookupA, if_neg h, mergeBalancesStep,
        lookupA_insertA_ne _ _ h]

theorem lookupA_foldl_mergeBalancesSource (bs : List (AMap IBalanceEntry))
    (acc : AMap IBalanceEntry) (k : String)
    (hwf : ∀ b ∈ bs, (keysA b).Nodup) :
    lookupA (bs.foldl mergeBalancesSource acc) k =
      bs.foldl
        (fun o b =>
          match lookupA b k with
          | none => o
          | some s => some (mergeBalancesCustomizer o s))
        (lookupA acc k) := by
  induction bs generalizing acc with
  | nil => rfl
  | cons b rest ih =>
    simp only [List.foldl_cons]
    rw [ih _ (fun b' hb' => hwf b' (List.mem_cons_of_mem _ hb'))]
    rw [lookupA_mergeBalancesSource acc b k (hwf b (List.mem_cons_self _ _))]

theorem foldl_mergeBalancesCombine_some (rest : List (AMap IBalanceEntry))
    (k : String) (e : IBalanceEntry) :
    rest.foldl
        (fun o b =>
          match lookupA b k with
          | none => o
          | some s => some (mergeBalancesCustomizer o s))
        (some e) =
      some ⟨e.symbol, e.decimals, e.amount + sumAmounts rest k⟩ := by
  induction rest generalizing e with
  | nil =>
    obtain ⟨sym, dec, amt⟩ := e
    simp [sumAmounts]
  | cons b rest ih =>
    simp only [List.foldl_cons]
    cases hb : lookupA b k with
    | none =>
      rw [ih e]
      simp only [sumAmounts, List.map_cons, List.sum_cons, amountAt, hb,
        Nat.zero_add]
    | some s =>
      have hred :
          (match some s with
            | none => some e
            | some s' => some (mergeBalancesCustomizer (some e) s')) =
            some (mergeBalancesCustomizer (some e) s) := rfl
      rw [hred]
      rw [ih (mergeBalancesCustomizer (some e) s)]
      simp only [mergeBalancesCustomizer, sumAmounts, List.map_cons,
        List.sum_cons, amountAt, hb]
      congr 1
      simp [Nat.add_assoc]

theorem lookupA_mergeBalances (bs : List (AMap IBalanceEntry)) (k : String)
    (hwf : ∀ b ∈ bs, (keysA b).Nodup) :
    lookupA (mergeBalances bs) k =
      match firstIEntryFor bs k with
      | none => none
      | some e0 => some ⟨e0.symbol, e0.decimals, sumAmounts bs k⟩ := by
  unfold mergeBalances
  rw [lookupA_foldl_mergeBalancesSource bs [] k hwf]
  clear hwf
  induction bs with
  | nil => rfl
  | cons b rest ih =>
    simp only [List.foldl_cons]
    cases hb : lookupA b k with
    | none =>
      simp only [lookupA] at ih ⊢
      rw [ih]
      simp only [firstIEntryFor, List.findSome?_cons, hb, sumAmounts,
        List.map_cons, List.sum_cons, amountAt, Nat.zero_add]
    | some s =>
      simp only [lookupA]
      rw [foldl_mergeBalancesCombine_some rest k (mergeBalancesCustomizer none s)]
      simp only [firstIEntryFor, List.findSome?_cons, hb, sumAmounts,
        List.map_cons, List.sum_cons, amountAt, mergeBalancesCustomizer, ZERO,
        Nat.zero_add]

theorem lookupA_isSome_iff_mem_keysA {α : Type} (m : AMap α) (k : String) :
    (lookupA m k).isSome = true ↔ k ∈ keysA m := by
  induction m with
  | nil => simp [lookupA, keysA]
  | cons hd tl ih =>
    obtain ⟨k₀, v₀⟩ := hd
    by_cases h : k₀ = k
    · subst h
      simp [lookupA, keysA]
    · simp only [lookupA, if_neg h, keysA, List.map_cons, List.mem_cons]
      rw [ih]
      simp only [keysA]
      constructor
      · exact Or.inr
      · rintro (h' | h')
        · exact absurd h'.symm h
        · exact h'

/-- C1: merging balance mappings takes the union of the key sets, sums the raw
amounts (absent keys contributing zero), takes symbol and decimals from the
first input that defines the key, and recomputes the formatted amount from the
summed raw amount; likewise for `mergeBalances` over the `IBalance` shape. -/
theorem mergeFormattedTokenBalances_spec :
    (∀ bs : List (AMap FormattedTokenBalance),
        (∀ b ∈ bs, (keysA b).Nodup) →
        ∀ k : String,
          (k ∈ keysA (mergeFormattedTokenBalances bs) ↔
            ∃ b ∈ bs, k ∈ keysA b) ∧
          lookupA (mergeFormattedTokenBalances bs) k =
            (match firstEntryFor bs k with
            | none => none
            | some e0 =>
              some ⟨sumRawAmounts bs k,
                fromBigIntToTokenValue (sumRawAmounts bs k) e0.decimals,
                e0.symbol, e0.decimals⟩)) ∧
    (∀ bs : List (AMap IBalanceEntry),
        (∀ b ∈ bs, (keysA b).Nodup) →
        ∀ k : String,
          (k ∈ keysA (mergeBalances bs) ↔ ∃ b ∈ bs, k ∈ keysA b) ∧
          lookupA (mergeBalances bs) k =
            (match firstIEntryFor bs k with
            | none => none
            | some e0 => some ⟨e0.symbol, e0.decimals, sumAmounts bs k⟩)) := by
  constructor
  · intro bs hwf k
    have hcf := lookupA_mergeFormattedTokenBalances bs k hwf
    refine ⟨?_, hcf⟩
    rw [← lookupA_isSome_iff_mem_keysA, hcf]
    cases hfe : firstEntryFor bs k with
    | none =>
      constructor
      · intro hff
        exact absurd hff (by simp)
      · rintro ⟨b, hb, hkb⟩
        rw [firstEntryFor, List.findSome?_eq_none_iff] at hfe
        have hnone := hfe b hb
        rw [← lookupA_isSome_iff_mem_keysA, hnone] at hkb
        simp at hkb
    | some e0 =>
      simp only [Option.isSome_some, true_iff]
      obtain ⟨b, hb, hlk⟩ := List.exists_of_findSome?_eq_some hfe
      refine ⟨b, hb, ?_⟩
      rw [← lookupA_isSome_iff_mem_keysA, hlk]
      rfl
  · intro bs hwf k
    have hcf := lookupA_mergeBalances bs k hwf
    refine ⟨?_, hcf⟩
    rw [← lookupA_isSome_iff_mem_keysA, hcf]
    cases hfe : firstIEntryFor bs k with
    | none =>
      constructor
      · intro hff
        exact absurd hff (by simp)
      · rintro ⟨b, hb, hkb⟩
        rw [firstIEntryFor, List.findSome?_eq_none_iff] at hfe
        have hnone := hfe b hb
        rw [← lookupA_isSome_iff_mem_keysA, hnone] at hkb
        simp at hkb
    | some e0 =>
      simp only [Option.isSome_some, true_iff]
      obtain ⟨b, hb, hlk⟩ := List.exists_of_findSome?_eq_some hfe
      refine ⟨b, hb, ?_⟩
      rw [← lookupA_isSome_iff_mem_keysA, hlk]
      rfl

/-- Witness for C1 at concrete inputs: the key shared by both inputs gets the
summed raw amount with recomputed formatted amount and first-seen metadata. -/
theorem mergeFormattedTokenBalances_spec_witness :
    lookupA
        (mergeFormattedTokenBalances
          [[("0xa", ⟨10, "0.00001", "TOK", 6⟩)],
            [("0xa", ⟨20, "0.00002", "TOK", 6⟩), ("0xb", ⟨7, "0.07", "OTH", 2⟩)]])
        "0xa" =
      some ⟨30, fromBigIntToTokenValue 30 6, "TOK", 6⟩ := by
  have h :=
    (mergeFormattedTokenBalances_spec.1
        [[("0xa", ⟨10, "0.00001", "TOK", 6⟩)],
          [("0xa", ⟨20, "0.00002", "TOK", 6⟩), ("0xb", ⟨7, "0.07", "OTH", 2⟩)]]
        (by decide) "0xa").2
  rw [h]
  decide

theorem keysA_nodup_foldl_mergeFormattedStep
    (src : List (String × FormattedTokenBalance))
    (acc : AMap FormattedTokenBalance) (h : (keysA acc).Nodup) :
    (keysA (src.foldl mergeFormattedStep acc)).Nodup := by
  induction src generalizing acc with
  | nil => exact h
  | cons x xs ih =>
    simp only [List.foldl_cons]
    exact ih _ (keysA_nodup_insertA h _ _)

theorem keysA_nodup_mergeFormattedTokenBalances
    (bs : List (AMap FormattedTokenBalance)) :
    (keysA (mergeFormattedTokenBalances bs)).Nodup := by
  have hgen : ∀ (bs : List (AMap FormattedTokenBalance))
      (acc : AMap FormattedTokenBalance), (keysA acc).Nodup →
      (keysA (bs.foldl mergeFormattedSource acc)).Nodup := by
    intro bs
    induction bs with
    | nil => exact fun acc h => h
    | cons b rest ih =>
      intro acc h
      simp only [List.foldl_cons]
      exact ih _ (keysA_nodup_foldl_mergeFormattedStep b acc h)
  exact hgen bs [] (by simp [keysA])

theorem sumRawAmounts_eq_zero (bs : List (AMap FormattedTokenBalance))
    (k : String) (h : ∀ b ∈ bs, lookupA b k = none) :
    sumRawAmounts bs k = 0 := by
  induction bs with
  | nil => rfl
  | cons b rest ih =>
    simp only [sumRawAmounts, List.map_cons, List.sum_cons, rawAmountAt,
      h b (List.mem_cons_self _ _)]
    rw [Nat.zero_add]
    exact ih (fun b' hb' => h b' (List.mem_cons_of_mem _ hb'))

theorem rawAmountAt_mergeFormatted (g : List (AMap FormattedTokenBalance))
    (k : String) (hwf : ∀ b ∈ g, (keysA b).Nodup) :
    rawAmountAt (mergeFormattedTokenBalances g) k = sumRawAmounts g k := by
  unfold rawAmountAt
  rw [lookupA_mergeFormattedTokenBalances g k hwf]
  cases hfe : firstEntryFor g k with
  | none =>
    rw [firstEntryFor, List.findSome?_eq_none_iff] at hfe
    exact (sumRawAmounts_eq_zero g k hfe).symm
  | some e0 => rfl

theorem sumRawAmounts_append (g rest : List (AMap FormattedTokenBalance))
    (k : String) :
    sumRawAmounts (g ++ rest) k = sumRawAmounts g k + sumRawAmounts rest k := by
  simp [sumRawAmounts, List.map_append, List.sum_append]

theorem sumRawAmounts_map_merge (gs : List (List (AMap FormattedTokenBalance)))
    (k : String) (hwf : ∀ b ∈ gs.flatten, (keysA b).Nodup) :
    sumRawAmounts (gs.map mergeFormattedTokenBalances) k =
      sumRawAmounts gs.flatten k := by
  induction gs with
  | nil => rfl
  | cons g rest ih =>
    simp only [List.map_cons, List.flatten_cons]
    rw [sumRawAmounts_append]
    have hwfg : ∀ b ∈ g, (keysA b).Nodup := by
      intro b hb
      exact hwf b (by simp only [List.flatten_cons, List.mem_append]; exact Or.inl hb)
    have hwfr : ∀ b ∈ rest.flatten, (keysA b).Nodup := by
      intro b hb
      exact hwf b (by simp only [List.flatten_cons, List.mem_append]; exact Or.inr hb)
    have hhd : sumRawAmounts (mergeFormattedTokenBalances g ::
        rest.map mergeFormattedTokenBalances) k =
        rawAmountAt (mergeFormattedTokenBalances g) k +
          sumRawAmounts (rest.map mergeFormattedTokenBalances) k := by
      simp [sumRawAmounts, List.map_cons, List.sum_cons]
    rw [hhd, rawAmountAt_mergeFormatted g k hwfg, ih hwfr]

theorem firstEntryFor_cons (b : AMap FormattedTokenBalance)
    (bs : List (AMap FormattedTokenBalance)) (k : String) :
    firstEntryFor (b :: bs) k = (lookupA b k).or (firstEntryFor bs k) := by
  unfold firstEntryFor
  cases hb : lookupA b k with
  | none =>
    rw [List.findSome?_cons_of_isNone _ (by simp [hb]), Option.none_or]
  | some e =>
    rw [List.findSome?_cons_of_isSome _ (by simp [hb]), Option.or_some]
    exact hb

theorem firstEntryFor_append (l₁ l₂ : List (AMap FormattedTokenBalance))
    (k : String) :
    firstEntryFor (l₁ ++ l₂) k =
      (firstEntryFor l₁ k).or (firstEntryFor l₂ k) := by
  unfold firstEntryFor
  exact List.findSome?_append

theorem firstEntryFor_map_merge (gs : List (List (AMap FormattedTokenBalance)))
    (k : String) (hwf : ∀ b ∈ gs.flatten, (keysA b).Nodup) :
    (firstEntryFor (gs.map mergeFormattedTokenBalances) k).map
        (fun e => (e.symbol, e.decimals)) =
      (firstEntryFor gs.flatten k).map (fun e => (e.symbol, e.decimals)) := by
  induction gs with
  | nil => rfl
  | cons g rest ih =>
    have hwfg : ∀ b ∈ g, (keysA b).Nodup := by
      intro b hb
      exact hwf b (by simp only [List.flatten_cons, List.mem_append]; exact Or.inl hb)
    have hwfr : ∀ b ∈ rest.flatten, (keysA b).Nodup := by
      intro b hb
      exact hwf b (by simp only [List.flatten_cons, List.mem_append]; exact Or.inr hb)
    rw [List.map_cons, List.flatten_cons, firstEntryFor_cons,
      firstEntryFor_append, lookupA_mergeFormattedTokenBalances g k hwfg]
    cases hfe : firstEntryFor g k with
    | none => exact ih hwfr
    | some e0 => rfl

/-- C2: for inputs with duplicate-free keys that agree on symbol and decimals
wherever they overlap, merging is invariant under permutation of the input
list, and merging intermediate merges of groups equals merging the flattened
input list — extensionally, key by key. -/
theorem mergeFormattedTokenBalances_comm_assoc :
    (∀ bs bs' : List (AMap FormattedTokenBalance), bs.Perm bs' →
        (∀ b ∈ bs, (keysA b).Nodup) → agreeOnMetadata bs →
        ∀ k : String, lookupA (mergeFormattedTokenBalances bs) k =
          lookupA (mergeFormattedTokenBalances bs') k) ∧
    (∀ gs : List (List (AMap FormattedTokenBalance)),
        (∀ b ∈ gs.flatten, (keysA b).Nodup) → agreeOnMetadata gs.flatten →
        ∀ k : String,
          lookupA (mergeFormattedTokenBalances
              (gs.map mergeFormattedTokenBalances)) k =
            lookupA (mergeFormattedTokenBalances gs.flatten) k) := by
  constructor
  · intro bs bs' hperm hwf hagree k
    have hwf' : ∀ b ∈ bs', (keysA b).Nodup := fun b hb =>
      hwf b (hperm.mem_iff.mpr hb)
    rw [lookupA_mergeFormattedTokenBalances bs k hwf,
      lookupA_mergeFormattedTokenBalances bs' k hwf']
    have hsum : sumRawAmounts bs k = sumRawAmounts bs' k :=
      List.Perm.sum_eq (hperm.map _)
    cases h1 : firstEntryFor bs k with
    | none =>
      cases h2 : firstEntryFor bs' k with
      | none => rfl
      | some e' =>
        exfalso
        obtain ⟨b, hb, hlk⟩ := List.exists_of_findSome?_eq_some h2
        rw [firstEntryFor, List.findSome?_eq_none_iff] at h1
        have hn := h1 b (hperm.mem_iff.mpr hb)
        rw [hn] at hlk
        exact Option.noConfusion hlk
    | some e =>
      cases h2 : firstEntryFor bs' k with
      | none =>
        exfalso
        obtain ⟨b, hb, hlk⟩ := List.exists_of_findSome?_eq_some h1
        rw [firstEntryFor, List.findSome?_eq_none_iff] at h2
        have hn := h2 b (hperm.mem_iff.mp hb)
        rw [hn] at hlk
        exact Option.noConfusion hlk
      | some e' =>
        obtain ⟨b, hb, hlk⟩ := List.exists_of_findSome?_eq_some h1
        obtain ⟨b', hb', hlk'⟩ := List.exists_of_findSome?_eq_some h2
        have hb'' : b' ∈ bs := hperm.mem_iff.mpr hb'
        have hkmem : k ∈ keysA b := by
          rw [← lookupA_isSome_iff_mem_keysA, hlk]
          rfl
        have hma := hagree b hb b' hb'' k hkmem
        rw [hlk, hlk'] at hma
        simp only [metaAgrees] at hma
        rw [hsum]
        have hent :
            (⟨sumRawAmounts bs' k,
                fromBigIntToTokenValue (sumRawAmounts bs' k) e.decimals,
                e.symbol, e.decimals⟩ : FormattedTokenBalance) =
              ⟨sumRawAmounts bs' k,
                fromBigIntToTokenValue (sumRawAmounts bs' k) e'.decimals,
                e'.symbol, e'.decimals⟩ := by
          rw [hma.1, hma.2]
        exact congrArg some hent
  · intro gs hwf _hagree k
    have hwfm : ∀ b ∈ gs.map mergeFormattedTokenBalances, (keysA b).Nodup := by
      intro b hb
      obtain ⟨g, _, rfl⟩ := List.mem_map.mp hb
      exact keysA_nodup_mergeFormattedTokenBalances g
    rw [lookupA_mergeFormattedTokenBalances _ k hwfm,
      lookupA_mergeFormattedTokenBalances _ k hwf]
    have hsum := sumRawAmounts_map_merge gs k hwf
    have hfe := firstEntryFor_map_merge gs k hwf
    cases h1 : firstEntryFor (gs.map mergeFormattedTokenBalances) k with
    | none =>
      cases h2 : firstEntryFor gs.flatten k with
      | none => rfl
      | some e =>
        rw [h1, h2] at hfe
        exact absurd hfe (by simp)
    | some e =>
      cases h2 : firstEntryFor gs.flatten k with
      | none =>
        rw [h1, h2] at hfe
        exact absurd hfe (by simp)
      | some e' =>
        rw [h1, h2] at hfe
        simp only [Option.map_some', Option.some_inj, Prod.mk.injEq] at hfe
        rw [hsum]
        have hent :
            (⟨sumRawAmounts gs.flatten k,
                fromBigIntToTokenValue (sumRawAmounts gs.flatten k) e.decimals,
                e.symbol, e.decimals⟩ : FormattedTokenBalance) =
              ⟨sumRawAmounts gs.flatten k,
                fromBigIntToTokenValue (sumRawAmounts gs.flatten k) e'.decimals,
                e'.symbol, e'.decimals⟩ := by
          rw [hfe.1, hfe.2]
        exact congrArg some hent

/-- Witness for C2 at concrete inputs: swapping two input mappings, or
pre-merging them as groups, leaves the merged value at the shared key
unchanged. -/
theorem mergeFormattedTokenBalances_comm_assoc_witness :
    (lookupA
        (mergeFormattedTokenBalances
          [[("0xa", ⟨10, "10", "TOK", 0⟩)], [("0xa", ⟨20, "20", "TOK", 0⟩)]])
        "0xa" =
      lookupA
        (mergeFormattedTokenBalances
          [[("0xa", ⟨20, "20", "TOK", 0⟩)], [("0xa", ⟨10, "10", "TOK", 0⟩)]])
        "0xa") ∧
    (lookupA
        (mergeFormattedTokenBalances
          ([[[("0xa", ⟨10, "10", "TOK", 0⟩)]],
              [[("0xa", ⟨20, "20", "TOK", 0⟩)]]].map
            mergeFormattedTokenBalances))
        "0xa" =
      lookupA
        (mergeFormattedTokenBalances
          [[[("0xa", ⟨10, "10", "TOK", 0⟩)]],
            [[("0xa", ⟨20, "20", "TOK", 0⟩)]]].flatten)
        "0xa") := by
  constructor
  · exact mergeFormattedTokenBalances_comm_assoc.1
      [[("0xa", ⟨10, "10", "TOK", 0⟩)], [("0xa", ⟨20, "20", "TOK", 0⟩)]]
      [[("0xa", ⟨20, "20", "TOK", 0⟩)], [("0xa", ⟨10, "10", "TOK", 0⟩)]]
      (List.Perm.swap _ _ _) (by decide) (by decide) "0xa"
  · exact mergeFormattedTokenBalances_comm_assoc.2
      [[[("0xa", ⟨10, "10", "TOK", 0⟩)]], [[("0xa", ⟨20, "20", "TOK", 0⟩)]]]
      (by decide) (by decide) "0xa"

theorem lookupA_nil {α : Type} (k : String) : lookupA ([] : AMap α) k = none :=
  rfl

theorem map_fst_zip_sublist {α β : Type} (l₁ : List α) (l₂ : List β) :
    ((l₁.zip l₂).map Prod.fst).Sublist l₁ := by
  induction l₁ generalizing l₂ with
  | nil => simp
  | cons a l₁ ih =>
    cases l₂ with
    | nil => simp
    | cons b l₂ =>
      simp only [List.zip_cons_cons, List.map_cons]
      exact (ih l₂).cons₂ a

/-- C6: `fetchTokenData` returns a mapping containing a (non-zero, unrepeated)
token exactly when both its symbol result and its decimals result are defined,
in which case the entry holds that symbol and decimals; otherwise the token is
omitted. -/
theorem fetchTokenData_spec :
    ∀ (tokens : List String) (resp : List (Option String × Option Nat)),
      (tokens.filter (fun t => t ≠ zeroAddress)).Nodup →
      ∀ (i : Nat) (t : String) (s : Option String) (d : Option Nat),
        (tokens.filter (fun t => t ≠ zeroAddress))[i]? = some t →
        resp[i]? = some (s, d) →
        lookupA (fetchTokenData tokens resp) t =
          (match s, d with
          | some sv, some dv => some ⟨t, some sv, some dv⟩
          | _, _ => none) := by
  intro tokens resp hnd i t s d ht hr
  unfold fetchTokenData
  have hfun : tokenDataStep = stepOf tokenDataEnt :=
    funext fun m => funext fun x => tokenDataStep_eq m x
  rw [hfun, lookupA_foldl_stepOf, lookupA_nil]
  have hz : ((tokens.filter (fun t => t ≠ zeroAddress)).zip resp)[i]? =
      some (t, (s, d)) := by
    rw [List.getElem?_zip_eq_some]
    exact ⟨ht, hr⟩
  have hmem : (t, (s, d)) ∈ (tokens.filter (fun t => t ≠ zeroAddress)).zip resp :=
    List.getElem?_mem hz
  have hznd :
      ((((tokens.filter (fun t => t ≠ zeroAddress)).zip resp).map
        Prod.fst)).Nodup :=
    List.Nodup.sublist (map_fst_zip_sublist _ _) hnd
  rw [foldl_applyEnt_of_mem_nodup tokenDataEnt hznd hmem]
  cases s <;> cases d <;> rfl

/-- Witness for C6 at concrete inputs: both results defined gives an entry
with that symbol and decimals; a missing decimals result omits the token. -/
theorem fetchTokenData_spec_witness :
    lookupA
        (fetchTokenData ["0xa", "0xb"]
          [(some "TOK", some 6), (some "OTH", none)]) "0xa" =
      some ⟨"0xa", some "TOK", some 6⟩ ∧
    lookupA
        (fetchTokenData ["0xa", "0xb"]
          [(some "TOK", some 6), (some "OTH", none)]) "0xb" = none := by
  constructor
  · exact fetchTokenData_spec ["0xa", "0xb"]
      [(some "TOK", some 6), (some "OTH", none)] (by decide) 0 "0xa"
      (some "TOK") (some 6) (by decide) (by decide)
  · exact fetchTokenData_spec ["0xa", "0xb"]
      [(some "TOK", some 6), (some "OTH", none)] (by decide) 1 "0xb"
      (some "OTH") none (by decide) (by decide)

theorem zip_getElem?_mem_of_nodup {β : Type} {ts : List String} {rs : List β}
    {i : Nat} {k : String} {r : β} (ht : ts[i]? = some k)
    (hr : rs[i]? = some r) (hnd : ts.Nodup) :
    (k, r) ∈ ts.zip rs ∧ ((ts.zip rs).map Prod.fst).Nodup := by
  have hz : (ts.zip rs)[i]? = some (k, r) := by
    rw [List.getElem?_zip_eq_some]
    exact ⟨ht, hr⟩
  exact ⟨List.getElem?_mem hz,
    List.Nodup.sublist (map_fst_zip_sublist _ _) hnd⟩

/-- C3: the split reducers (both versions) emit an entry exactly when the
(summed) raw amount strictly exceeds 2, while the plain account reducer emits
an entry for any defined raw amount including 0, with no dust filter. -/
theorem dustFilter_spec :
    (∀ (c : Nat → Option String) (ci : Nat) (ts : List String)
        (td : AMap Token) (rs : List (Option Nat)) (k : String) (b i : Nat),
        ts.Nodup → ts[i]? = some k → rs[i]? = some (some b) →
        (splitTokenMeta c ci td k).isSome →
        ((lookupA (processSplitBalanceMulticallResponseV1 c ci ts td rs []) k).isSome
          ↔ 2 < b)) ∧
    (∀ (c : Nat → Option String) (ci : Nat) (ts : List String)
        (td : AMap Token) (rs : List (Option (Option Nat × Option Nat)))
        (k : String) (sb wb i : Nat),
        ts.Nodup → ts[i]? = some k → rs[i]? = some (some (some sb, some wb)) →
        (splitTokenMeta c ci td k).isSome → (∀ r ∈ rs, r ≠ none) →
        ∃ out, processSplitBalanceMulticallResponseV2 c ci ts td rs [] =
            Except.ok out ∧ ((lookupA out k).isSome ↔ 2 < sb + wb)) ∧
    (∀ (c : Nat → Option String) (ci : Nat) (ts : List String)
        (td : AMap Token) (rs : List (Option Nat)) (k : String) (b i : Nat),
        ts.Nodup → ts[i]? = some k → rs[i]? = some (some b) →
        plainMetaOk td k = true →
        (lookupA (processBalanceMulticallResponse c ci ts td rs []) k).isSome) := by
  refine ⟨?_, ?_, ?_⟩
  · intro c ci ts td rs k b i hnd ht hr hmeta
    obtain ⟨hmem, hznd⟩ := zip_getElem?_mem_of_nodup ht hr hnd
    unfold processSplitBalanceMulticallResponseV1
    have hfun : splitV1BalanceStep c ci td = stepOf (splitV1Ent c ci td) :=
      funext fun m => funext fun x => splitV1BalanceStep_eq c ci td m x
    rw [hfun, lookupA_foldl_stepOf, lookupA_nil,
      foldl_applyEnt_of_mem_nodup _ hznd hmem]
    cases hm : splitTokenMeta c ci td k with
    | none => rw [hm] at hmeta; exact absurd hmeta (by simp)
    | some sd =>
      obtain ⟨sy, de⟩ := sd
      by_cases h2 : 2 < b
      · simp [splitV1Ent, hm, h2]
      · simp [splitV1Ent, hm, h2]
  · intro c ci ts td rs k sb wb i hnd ht hr hmeta hdef
    obtain ⟨hmem, hznd⟩ := zip_getElem?_mem_of_nodup ht hr hnd
    have hzdef : ∀ x ∈ ts.zip rs, x.2 ≠ none := by
      intro x hx
      exact hdef x.2 (List.of_mem_zip hx).2
    refine ⟨(ts.zip rs).foldl (stepOf (splitV2Ent c ci td)) [], ?_, ?_⟩
    · exact foldlM_splitV2_ok c ci td [] hzdef
    · rw [lookupA_foldl_stepOf, lookupA_nil,
        foldl_applyEnt_of_mem_nodup _ hznd hmem]
      cases hm : splitTokenMeta c ci td k with
      | none => rw [hm] at hmeta; exact absurd hmeta (by simp)
      | some sd =>
        obtain ⟨sy, de⟩ := sd
        by_cases h2 : 2 < sb + wb
        · simp [splitV2Ent, hm, h2]
        · simp [splitV2Ent, hm, h2]
  · intro c ci ts td rs k b i hnd ht hr hmeta
    obtain ⟨hmem, hznd⟩ := zip_getElem?_mem_of_nodup ht hr hnd
    unfold processBalanceMulticallResponse
    have hfun : plainBalanceStep c ci td = stepOf (plainEnt c ci td) :=
      funext fun m => funext fun x => plainBalanceStep_eq c ci td m x
    rw [hfun, lookupA_foldl_stepOf, lookupA_nil,
      foldl_applyEnt_of_mem_nodup _ hznd hmem]
    unfold plainMetaOk at hmeta
    by_cases hz : k = zeroAddress
    · simp [plainEnt, hz]
    · rw [show (decide (k = zeroAddress)) = false from decide_eq_false hz,
        Bool.false_or] at hmeta
      cases hlk : lookupA td k with
      | none => rw [hlk] at hmeta; exact absurd hmeta (by simp)
      | some tok =>
        rw [hlk] at hmeta
        obtain ⟨a, so, dOpt⟩ := tok
        cases so with
        | none => exact absurd hmeta (by simp)
        | some sv =>
          cases dOpt with
          | none => exact absurd hmeta (by simp)
          | some dv => simp [plainEnt, hz, hlk]

/-- Witness for C3: raw amount 3 is included and 1 + 1 = 2 excluded by the
split reducers, while the plain reducer emits an entry for raw amount 0. -/
theorem dustFilter_spec_witness :
    ((lookupA
        (processSplitBalanceMulticallResponseV1 (fun _ => none) 1 ["0xa"]
          [("0xa", ⟨"0xa", some "TOK", some 6⟩)] [some 3] []) "0xa").isSome
      ↔ 2 < 3) ∧
    (∃ out, processSplitBalanceMulticallResponseV2 (fun _ => none) 1 ["0xa"]
        [("0xa", ⟨"0xa", some "TOK", some 6⟩)] [some (some 1, some 1)] [] =
        Except.ok out ∧ ((lookupA out "0xa").isSome ↔ 2 < 1 + 1)) ∧
    (lookupA
        (processBalanceMulticallResponse (fun _ => none) 1 ["0xa"]
          [("0xa", ⟨"0xa", some "TOK", some 6⟩)] [some 0] []) "0xa").isSome := by
  refine ⟨?_, ?_, ?_⟩
  · exact dustFilter_spec.1 (fun _ => none) 1 ["0xa"]
      [("0xa", ⟨"0xa", some "TOK", some 6⟩)] [some 3] "0xa" 3 0 (by decide)
      (by decide) (by decide) (by decide)
  · exact dustFilter_spec.2.1 (fun _ => none) 1 ["0xa"]
      [("0xa", ⟨"0xa", some "TOK", some 6⟩)] [some (some 1, some 1)] "0xa" 1 1 0
      (by decide) (by decide) (by decide) (by decide) (by decide)
  · exact dustFilter_spec.2.2 (fun _ => none) 1 ["0xa"]
      [("0xa", ⟨"0xa", some "TOK", some 6⟩)] [some 0] "0xa" 0 0 (by decide)
      (by decide) (by decide) (by decide)

/-- C4: evaluation of the splitV2 reducer at concrete inputs.  Both components
defined are summed (2 + 3 = 5); one undefined component (with a defined result
tuple) skips the entry without failing; but a wholly undefined result is
destructured before any check and THROWS, contradicting the claim that this
case "emits no entry for that token and does not fail". -/
theorem splitV2BalanceSum_eval :
    processSplitBalanceMulticallResponseV2 (fun _ => none) 1 ["0xa"]
        [("0xa", ⟨"0xa", some "TOK", some 6⟩)] [none] [] =
      Except.error
        "TypeError: cannot destructure an undefined multicall result" ∧
    processSplitBalanceMulticallResponseV2 (fun _ => none) 1 ["0xa"]
        [("0xa", ⟨"0xa", some "TOK", some 6⟩)] [some (some 2, some 3)] [] =
      Except.ok [("0xa", ⟨5, fromBigIntToTokenValue 5 6, "TOK", 6⟩)] ∧
    processSplitBalanceMulticallResponseV2 (fun _ => none) 1 ["0xa"]
        [("0xa", ⟨"0xa", some "TOK", some 6⟩)] [some (none, some 3)] [] =
      Except.ok [] := by
  refine ⟨rfl, ?_, rfl⟩
  rfl

/-- C5: evaluation of all three reducers at an undefined result.  The plain
account reducer and the splitV1 reducer skip the index without error, but the
splitV2 reducer raises, contradicting the claim that undefined indices "are
skipped without raising an error" for each reducer. -/
theorem undefinedResultSkipped_eval :
    processBalanceMulticallResponse (fun _ => none) 1 ["0xb"]
        [("0xb", ⟨"0xb", some "TOK", some 6⟩)] [none] [] = [] ∧
    processSplitBalanceMulticallResponseV1 (fun _ => none) 1 ["0xb"]
        [("0xb", ⟨"0xb", some "TOK", some 6⟩)] [none] [] = [] ∧
    processSplitBalanceMulticallResponseV2 (fun _ => none) 1 ["0xb"]
        [("0xb", ⟨"0xb", some "TOK", some 6⟩)] [none] [] =
      Except.error
        "TypeError: cannot destructure an undefined multicall result" :=
  ⟨rfl, rfl, rfl⟩

theorem foldl_applyEnt_prop {β α : Type} (ent : String → β → Option α)
    (k : String) (P : α → Prop)
    (hent : ∀ t r e, ent t r = some e → t = k → P e) :
    ∀ (l : List (String × β)) (acc : Option α),
      (∀ e, acc = some e → P e) →
      ∀ e, l.foldl (applyEnt ent k) acc = some e → P e := by
  intro l
  induction l with
  | nil => exact fun acc hacc e he => hacc e he
  | cons x xs ih =>
    intro acc hacc e he
    rw [List.foldl_cons] at he
    refine ih _ ?_ e he
    intro e' he'
    unfold applyEnt at he'
    by_cases hx : x.1 = k
    · rw [if_pos hx] at he'
      cases hent2 : ent x.1 x.2 with
      | none => rw [hent2] at he'; exact hacc e' he'
      | some e'' =>
        rw [hent2] at he'
        cases he'
        exact hent x.1 x.2 e' hent2 hx
    · rw [if_neg hx] at he'
      exact hacc e' he'

theorem foldl_applyEnt_congr {β α : Type} (ent ent' : String → β → Option α)
    (k : String) (h : ∀ t r, t = k → ent t r = ent' t r) :
    ∀ (l : List (String × β)) (acc : Option α),
      l.foldl (applyEnt ent k) acc = l.foldl (applyEnt ent' k) acc := by
  intro l
  induction l with
  | nil => exact fun acc => rfl
  | cons x xs ih =>
    intro acc
    rw [List.foldl_cons, List.foldl_cons]
    have hstep : applyEnt ent k acc x = applyEnt ent' k acc x := by
      unfold applyEnt
      by_cases hx : x.1 = k
      · rw [if_pos hx, if_pos hx, h x.1 x.2 hx]
      · rw [if_neg hx, if_neg hx]
    rw [hstep]
    exact ih _

theorem foldlM_splitV2_ok_imp (c : Nat → Option String) (ci : Nat)
    (td : AMap Token) :
    ∀ (l : List (String × Option (Option Nat × Option Nat)))
      (m out : AMap FormattedTokenBalance),
      l.foldlM (splitV2BalanceStep c ci td) m = Except.ok out →
      out = l.foldl (stepOf (splitV2Ent c ci td)) m := by
  intro l
  induction l with
  | nil =>
    intro m out h
    rw [List.foldlM_nil] at h
    exact (Except.ok.inj h).symm
  | cons x xs ih =>
    intro m out h
    rw [List.foldlM_cons] at h
    obtain ⟨t, r⟩ := x
    cases r with
    | none =>
      rw [show splitV2BalanceStep c ci td m (t, none) =
        Except.error
          "TypeError: cannot destructure an undefined multicall result"
        from rfl] at h
      exact Except.noConfusion h
    | some p =>
      rw [splitV2BalanceStep_eq c ci td m t (by simp)] at h
      rw [show (Except.ok (stepOf (splitV2Ent c ci td) m (t, some p)) >>=
          fun b => xs.foldlM (splitV2BalanceStep c ci td) b) =
          xs.foldlM (splitV2BalanceStep c ci td)
            (stepOf (splitV2Ent c ci td) m (t, some p)) from rfl] at h
      rw [List.foldl_cons]
      exact ih _ out h

theorem alchemyTokenFold_preserve_zero (c : Nat → Option String) (ci : Nat)
    (tdOf : AMap Token)
    (htd : ∀ a, getAddress a = zeroAddress → lookupA tdOf a = none) :
    ∀ (items : List (String × Nat)) (m : AMap FormattedTokenBalance),
      (∀ e, lookupA m zeroAddress = some e →
        e.decimals = 18 ∧ e.symbol = (c ci).getD "ETH") →
      ∀ e, lookupA (items.foldl (alchemyTokenStep tdOf) m) zeroAddress =
          some e → e.decimals = 18 ∧ e.symbol = (c ci).getD "ETH" := by
  intro items
  induction items with
  | nil => exact fun m hm e he => hm e he
  | cons item rest ih =>
    intro m hm e he
    rw [List.foldl_cons] at he
    refine ih _ ?_ e he
    intro e' he'
    unfold alchemyTokenStep at he'
    cases hlk : lookupA tdOf item.1 with
    | none => rw [hlk] at he'; exact hm e' he'
    | some td =>
      rw [hlk] at he'
      by_cases hk : getAddress item.1 = zeroAddress
      · rw [htd item.1 hk] at hlk
        exact Option.noConfusion hlk
      · rw [lookupA_insertA_ne _ _ hk] at he'
        exact hm e' he'

theorem alchemyLoop_preserve_zero (c : Nat → Option String) (ci : Nat)
    (tdOf : AMap Token) (eth : Nat) (api : Nat → AlchemyPage)
    (htd : ∀ a, getAddress a = zeroAddress → lookupA tdOf a = none) :
    ∀ (fuel n : Nat) (trace t : FetchTrace),
      (∀ e, lookupA trace.balances zeroAddress = some e →
        e.decimals = 18 ∧ e.symbol = (c ci).getD "ETH") →
      alchemyLoop c ci tdOf eth api fuel n trace = some t →
      ∀ e, lookupA t.balances zeroAddress = some e →
        e.decimals = 18 ∧ e.symbol = (c ci).getD "ETH" := by
  intro fuel
  induction fuel with
  | zero => intro n trace t _ h; exact Option.noConfusion h
  | succ fuel ih =>
    intro n trace t htrace h
    rw [alchemyLoop] at h
    have hpage : ∀ e,
        lookupA (alchemyProcessPage c ci tdOf (n = 0) eth (api n)
          trace.balances) zeroAddress = some e →
        e.decimals = 18 ∧ e.symbol = (c ci).getD "ETH" := by
      unfold alchemyProcessPage
      apply alchemyTokenFold_preserve_zero c ci tdOf htd
      by_cases hn : (n = 0 : Prop)
      · intro e he
        rw [if_pos (by simp [hn]), lookupA_insertA_self] at he
        cases he
        exact ⟨rfl, rfl⟩
      · intro e he
        rw [if_neg (by simp [hn])] at he
        exact htrace e he
    by_cases hkey : (api n).pageKey = ""
    · rw [if_pos hkey] at h
      cases h
      exact hpage
    · rw [if_neg hkey] at h
      exact ih (n + 1) _ t hpage h

/-- C8: an emitted native-sentinel entry always has decimals 18 and the
chain-registered native symbol with `"ETH"` as the unregistered default, for
the plain reducer, both split reducers, and the Alchemy fetcher; and the
reducers never consult the ERC-20 token metadata for the native entry (the
native result is identical under any two metadata mappings). -/
theorem nativeEntry_spec :
    (∀ (c : Nat → Option String) (ci : Nat) (ts : List String)
        (td : AMap Token) (rs : List (Option Nat)) (e : FormattedTokenBalance),
        lookupA (processBalanceMulticallResponse c ci ts td rs []) zeroAddress =
          some e → e.decimals = 18 ∧ e.symbol = (c ci).getD "ETH") ∧
    (∀ (c : Nat → Option String) (ci : Nat) (ts : List String)
        (td td' : AMap Token) (rs : List (Option Nat)),
        lookupA (processBalanceMulticallResponse c ci ts td rs []) zeroAddress =
          lookupA (processBalanceMulticallResponse c ci ts td' rs [])
            zeroAddress) ∧
    (∀ (c : Nat → Option String) (ci : Nat) (ts : List String)
        (td : AMap Token) (rs : List (Option Nat)) (e : FormattedTokenBalance),
        lookupA (processSplitBalanceMulticallResponseV1 c ci ts td rs [])
            zeroAddress = some e →
          e.decimals = 18 ∧ e.symbol = (c ci).getD "ETH") ∧
    (∀ (c : Nat → Option String) (ci : Nat) (ts : List String)
        (td td' : AMap Token) (rs : List (Option Nat)),
        lookupA (processSplitBalanceMulticallResponseV1 c ci ts td rs [])
            zeroAddress =
          lookupA (processSplitBalanceMulticallResponseV1 c ci ts td' rs [])
            zeroAddress) ∧
    (∀ (c : Nat → Option String) (ci : Nat) (ts : List String)
        (td : AMap Token) (rs : List (Option (Option Nat × Option Nat)))
        (out : AMap FormattedTokenBalance) (e : FormattedTokenBalance),
        processSplitBalanceMulticallResponseV2 c ci ts td rs [] =
          Except.ok out → lookupA out zeroAddress = some e →
          e.decimals = 18 ∧ e.symbol = (c ci).getD "ETH") ∧
    (∀ (c : Nat → Option String) (ci : Nat) (tdOf : AMap Token)
        (eth : Nat) (api : Nat → AlchemyPage) (fuel : Nat) (t : FetchTrace)
        (e : FormattedTokenBalance),
        (∀ a, getAddress a = zeroAddress → lookupA tdOf a = none) →
        fetchContractBalancesWithAlchemy c ci tdOf eth api fuel = some t →
        lookupA t.balances zeroAddress = some e →
        e.decimals = 18 ∧ e.symbol = (c ci).getD "ETH") := by
  have hplain : ∀ (c : Nat → Option String) (ci : Nat) (td : AMap Token)
      (t : String) (r : Option Nat) (e : FormattedTokenBalance),
      plainEnt c ci td t r = some e → t = zeroAddress →
      e.decimals = 18 ∧ e.symbol = (c ci).getD "ETH" := by
    intro c ci td t r e he ht
    subst ht
    cases r with
    | none => exact Option.noConfusion he
    | some b =>
      rw [show plainEnt c ci td zeroAddress (some b) =
        some ⟨b, fromBigIntToTokenValue b 18, (c ci).getD "ETH", 18⟩
        from rfl] at he
      cases he
      exact ⟨rfl, rfl⟩
  have hv1 : ∀ (c : Nat → Option String) (ci : Nat) (td : AMap Token)
      (t : String) (r : Option Nat) (e : FormattedTokenBalance),
      splitV1Ent c ci td t r = some e → t = zeroAddress →
      e.decimals = 18 ∧ e.symbol = (c ci).getD "ETH" := by
    intro c ci td t r e he ht
    subst ht
    cases r with
    | none =>
      rw [show splitV1Ent c ci td zeroAddress none = none from rfl] at he
      exact Option.noConfusion he
    | some b =>
      rw [show splitV1Ent c ci td zeroAddress (some b) =
        (if 2 < b then
          some ⟨b, fromBigIntToTokenValue b 18, (c ci).getD "ETH", 18⟩
        else none) from rfl] at he
      by_cases h2 : 2 < b
      · rw [if_pos h2] at he
        cases he
        exact ⟨rfl, rfl⟩
      · rw [if_neg h2] at he
        exact Option.noConfusion he
  have hv2 : ∀ (c : Nat → Option String) (ci : Nat) (td : AMap Token)
      (t : String) (r : Option (Option Nat × Option Nat))
      (e : FormattedTokenBalance),
      splitV2Ent c ci td t r = some e → t = zeroAddress →
      e.decimals = 18 ∧ e.symbol = (c ci).getD "ETH" := by
    intro c ci td t r e he ht
    subst ht
    cases r with
    | none => exact Option.noConfusion he
    | some p =>
      obtain ⟨sb, wb⟩ := p
      cases sb with
      | none => exact Option.noConfusion he
      | some sbv =>
        cases wb with
        | none => exact Option.noConfusion he
        | some wbv =>
          rw [show splitV2Ent c ci td zeroAddress
              (some (some sbv, some wbv)) =
            (if 2 < sbv + wbv then
              some ⟨sbv + wbv, fromBigIntToTokenValue (sbv + wbv) 18,
                (c ci).getD "ETH", 18⟩
            else none) from rfl] at he
          by_cases h2 : 2 < sbv + wbv
          · rw [if_pos h2] at he
            cases he
            exact ⟨rfl, rfl⟩
          · rw [if_neg h2] at he
            exact Option.noConfusion he
  refine ⟨?_, ?_, ?_, ?_, ?_, ?_⟩
  · intro c ci ts td rs e he
    unfold processBalanceMulticallResponse at he
    rw [show plainBalanceStep c ci td = stepOf (plainEnt c ci td) from
      funext fun m => funext fun x => plainBalanceStep_eq c ci td m x,
      lookupA_foldl_stepOf, lookupA_nil] at he
    exact foldl_applyEnt_prop _ _ _ (hplain c ci td) _ none
      (fun e h => Option.noConfusion h) e he
  · intro c ci ts td td' rs
    unfold processBalanceMulticallResponse
    rw [show plainBalanceStep c ci td = stepOf (plainEnt c ci td) from
      funext fun m => funext fun x => plainBalanceStep_eq c ci td m x,
      show plainBalanceStep c ci td' = stepOf (plainEnt c ci td') from
      funext fun m => funext fun x => plainBalanceStep_eq c ci td' m x,
      lookupA_foldl_stepOf, lookupA_foldl_stepOf, lookupA_nil]
    apply foldl_applyEnt_congr
    intro t r ht
    subst ht
    cases r with
    | none => rfl
    | some b => rfl
  · intro c ci ts td rs e he
    unfold processSplitBalanceMulticallResponseV1 at he
    rw [show splitV1BalanceStep c ci td = stepOf (splitV1Ent c ci td) from
      funext fun m => funext fun x => splitV1BalanceStep_eq c ci td m x,
      lookupA_foldl_stepOf, lookupA_nil] at he
    exact foldl_applyEnt_prop _ _ _ (hv1 c ci td) _ none
      (fun e h => Option.noConfusion h) e he
  · intro c ci ts td td' rs
    unfold processSplitBalanceMulticallResponseV1
    rw [show splitV1BalanceStep c ci td = stepOf (splitV1Ent c ci td) from
      funext fun m => funext fun x => splitV1BalanceStep_eq c ci td m x,
      show splitV1BalanceStep c ci td' = stepOf (splitV1Ent c ci td') from
      funext fun m => funext fun x => splitV1BalanceStep_eq c ci td' m x,
      lookupA_foldl_stepOf, lookupA_foldl_stepOf, lookupA_nil]
    apply foldl_applyEnt_congr
    intro t r ht
    subst ht
    cases r with
    | none => rfl
    | some b => rfl
  · intro c ci ts td rs out e hok he
    unfold processSplitBalanceMulticallResponseV2 at hok
    have hout := foldlM_splitV2_ok_imp c ci td _ _ _ hok
    subst hout
    rw [lookupA_foldl_stepOf, lookupA_nil] at he
    exact foldl_applyEnt_prop _ _ _ (hv2 c ci td) _ none
      (fun e h => Option.noConfusion h) e he
  · intro c ci tdOf eth api fuel t e htd hrun he
    unfold fetchContractBalancesWithAlchemy at hrun
    exact alchemyLoop_preserve_zero c ci tdOf eth api htd fuel 0 _ t
      (fun e h => Option.noConfusion h) hrun e he

/-- Witness for C8 at concrete inputs: the native entries produced by the
plain reducer and by the Alchemy fetcher on an unregistered chain have
decimals 18 and symbol `"ETH"`. -/
theorem nativeEntry_spec_witness :
    ((⟨7, fromBigIntToTokenValue 7 18, "ETH", 18⟩ :
        FormattedTokenBalance).decimals = 18 ∧
      (⟨7, fromBigIntToTokenValue 7 18, "ETH", 18⟩ :
        FormattedTokenBalance).symbol =
        ((fun _ => none : Nat → Option String) 1).getD "ETH") ∧
    ((⟨9, fromBigIntToTokenValue 9 18, "ETH", 18⟩ :
        FormattedTokenBalance).decimals = 18 ∧
      (⟨9, fromBigIntToTokenValue 9 18, "ETH", 18⟩ :
        FormattedTokenBalance).symbol =
        ((fun _ => none : Nat → Option String) 1).getD "ETH") := by
  constructor
  · exact nativeEntry_spec.1 (fun _ => none) 1 [zeroAddress] [] [some 7]
      ⟨7, fromBigIntToTokenValue 7 18, "ETH", 18⟩ (by decide)
  · exact nativeEntry_spec.2.2.2.2.2 (fun _ => none) 1 [] 9
      (fun _ => ⟨[], ""⟩) 1 ⟨1, 1, [(zeroAddress,
        ⟨9, fromBigIntToTokenValue 9 18, "ETH", 18⟩)]⟩
      ⟨9, fromBigIntToTokenValue 9 18, "ETH", 18⟩
      (fun a _ => rfl) (by decide) (by decide)

theorem keysA_nodup_foldl_stepOf {β α : Type} (ent : String → β → Option α) :
    ∀ (l : List (String × β)) (m : AMap α), (keysA m).Nodup →
      (keysA (l.foldl (stepOf ent) m)).Nodup := by
  intro l
  induction l with
  | nil => exact fun m h => h
  | cons x xs ih =>
    intro m h
    rw [List.foldl_cons]
    apply ih
    unfold stepOf
    cases ent x.1 x.2 with
    | none => exact h
    | some e => exact keysA_nodup_insertA h _ _

theorem lookup_foldl_stepOf_decomp {β α : Type} (ent : String → β → Option α)
    (l₁ l₂ : List (String × β)) (k : String) (r : β)
    (h₂ : ∀ x ∈ l₂, x.1 ≠ k) :
    lookupA ((l₁ ++ (k, r) :: l₂).foldl (stepOf ent) []) k =
      (ent k r).or (lookupA (l₁.foldl (stepOf ent) []) k) := by
  rw [lookupA_foldl_stepOf, lookupA_nil, List.foldl_append, List.foldl_cons,
    foldl_applyEnt_of_forall_ne ent k _ h₂, lookupA_foldl_stepOf, lookupA_nil]
  unfold applyEnt
  rw [if_pos rfl]
  cases ent k r <;> rfl

/-- C10 counterexample: the plain reducer on the duplicated token list
`["0xa", "0xa"]` with results `[5, undefined]` keeps the entry computed from
the FIRST occurrence (raw amount 5), while the last occurrence computes no
entry at all — so the retained entry is not "the one computed from the last
occurrence's batch result". -/
theorem duplicateTokenLastWins_counterexample :
    lookupA
        (processBalanceMulticallResponse (fun _ => none) 1 ["0xa", "0xa"]
          [("0xa", ⟨"0xa", some "TOK", some 6⟩)] [some 5, none] []) "0xa" =
      some ⟨5, fromBigIntToTokenValue 5 6, "TOK", 6⟩ ∧
    plainEnt (fun _ => none) 1 [("0xa", ⟨"0xa", some "TOK", some 6⟩)] "0xa"
        none = none :=
  ⟨rfl, rfl⟩

/-- C10 amended: the output keys are duplicate-free, and for a duplicated
token the retained entry is the one computed by the LAST occurrence that
emits an entry; an occurrence that emits nothing (undefined result, missing
metadata, or dust-filtered) leaves the entry of the earlier occurrences in
place rather than overwriting it. -/
theorem duplicateTokenOverwrite_spec :
    (∀ (c : Nat → Option String) (ci : Nat) (ts : List String)
        (td : AMap Token) (rs : List (Option Nat)),
        (keysA (processBalanceMulticallResponse c ci ts td rs [])).Nodup) ∧
    (∀ (c : Nat → Option String) (ci : Nat) (ts : List String)
        (td : AMap Token) (rs : List (Option Nat)),
        (keysA (processSplitBalanceMulticallResponseV1 c ci ts td rs [])).Nodup) ∧
    (∀ (c : Nat → Option String) (ci : Nat) (ts : List String)
        (td : AMap Token) (rs : List (Option (Option Nat × Option Nat)))
        (out : AMap FormattedTokenBalance),
        processSplitBalanceMulticallResponseV2 c ci ts td rs [] =
          Except.ok out → (keysA out).Nodup) ∧
    (∀ (c : Nat → Option String) (ci : Nat) (ts : List String)
        (td : AMap Token) (rs : List (Option Nat)) (k : String)
        (r : Option Nat) (l₁ l₂ : List (String × Option Nat)),
        ts.zip rs = l₁ ++ (k, r) :: l₂ → (∀ x ∈ l₂, x.1 ≠ k) →
        lookupA (processBalanceMulticallResponse c ci ts td rs []) k =
          (plainEnt c ci td k r).or
            (lookupA (l₁.foldl (stepOf (plainEnt c ci td)) []) k)) ∧
    (∀ (c : Nat → Option String) (ci : Nat) (ts : List String)
        (td : AMap Token) (rs : List (Option Nat)) (k : String)
        (r : Option Nat) (l₁ l₂ : List (String × Option Nat)),
        ts.zip rs = l₁ ++ (k, r) :: l₂ → (∀ x ∈ l₂, x.1 ≠ k) →
        lookupA (processSplitBalanceMulticallResponseV1 c ci ts td rs []) k =
          (splitV1Ent c ci td k r).or
            (lookupA (l₁.foldl (stepOf (splitV1Ent c ci td)) []) k)) ∧
    (∀ (c : Nat → Option String) (ci : Nat) (ts : List String)
        (td : AMap Token) (rs : List (Option (Option Nat × Option Nat)))
        (out : AMap FormattedTokenBalance) (k : String)
        (r : Option (Option Nat × Option Nat))
        (l₁ l₂ : List (String × Option (Option Nat × Option Nat))),
        processSplitBalanceMulticallResponseV2 c ci ts td rs [] =
          Except.ok out →
        ts.zip rs = l₁ ++ (k, r) :: l₂ → (∀ x ∈ l₂, x.1 ≠ k) →
        lookupA out k =
          (splitV2Ent c ci td k r).or
            (lookupA (l₁.foldl (stepOf (splitV2Ent c ci td)) []) k)) := by
  refine ⟨?_, ?_, ?_, ?_, ?_, ?_⟩
  · intro c ci ts td rs
    unfold processBalanceMulticallResponse
    rw [show plainBalanceStep c ci td = stepOf (plainEnt c ci td) from
      funext fun m => funext fun x => plainBalanceStep_eq c ci td m x]
    exact keysA_nodup_foldl_stepOf _ _ [] (by simp [keysA])
  · intro c ci ts td rs
    unfold processSplitBalanceMulticallResponseV1
    rw [show splitV1BalanceStep c ci td = stepOf (splitV1Ent c ci td) from
      funext fun m => funext fun x => splitV1BalanceStep_eq c ci td m x]
    exact keysA_nodup_foldl_stepOf _ _ [] (by simp [keysA])
  · intro c ci ts td rs out hok
    unfold processSplitBalanceMulticallResponseV2 at hok
    have hout := foldlM_splitV2_ok_imp c ci td _ _ _ hok
    subst hout
    exact keysA_nodup_foldl_stepOf _ _ [] (by simp [keysA])
  · intro c ci ts td rs k r l₁ l₂ hdec h₂
    unfold processBalanceMulticallResponse
    rw [show plainBalanceStep c ci td = stepOf (plainEnt c ci td) from
      funext fun m => funext fun x => plainBalanceStep_eq c ci td m x,
      hdec]
    exact lookup_foldl_stepOf_decomp (plainEnt c ci td) l₁ l₂ k r h₂
  · intro c ci ts td rs k r l₁ l₂ hdec h₂
    unfold processSplitBalanceMulticallResponseV1
    rw [show splitV1BalanceStep c ci td = stepOf (splitV1Ent c ci td) from
      funext fun m => funext fun x => splitV1BalanceStep_eq c ci td m x,
      hdec]
    exact lookup_foldl_stepOf_decomp (splitV1Ent c ci td) l₁ l₂ k r h₂
  · intro c ci ts td rs out k r l₁ l₂ hok hdec h₂
    unfold processSplitBalanceMulticallResponseV2 at hok
    have hout := foldlM_splitV2_ok_imp c ci td _ _ _ hok
    subst hout
    rw [hdec]
    exact lookup_foldl_stepOf_decomp (splitV2Ent c ci td) l₁ l₂ k r h₂

/-- Witness for the amended C10 at concrete inputs: with the duplicated token
`"0xa"` and results `[5, 7]`, the last occurrence emits and its entry (raw
amount 7) overwrites the earlier one. -/
theorem duplicateTokenOverwrite_spec_witness :
    lookupA
        (processBalanceMulticallResponse (fun _ => none) 1 ["0xa", "0xa"]
          [("0xa", ⟨"0xa", some "TOK", some 6⟩)] [some 5, some 7] []) "0xa" =
      (plainEnt (fun _ => none) 1
          [("0xa", ⟨"0xa", some "TOK", some 6⟩)] "0xa" (some 7)).or
        (lookupA
          ([("0xa", (some 5 : Option Nat))].foldl
            (stepOf (plainEnt (fun _ => none) 1
              [("0xa", ⟨"0xa", some "TOK", some 6⟩)])) []) "0xa") := by
  exact duplicateTokenOverwrite_spec.2.2.2.1 (fun _ => none) 1 ["0xa", "0xa"]
    [("0xa", ⟨"0xa", some "TOK", some 6⟩)] [some 5, some 7] "0xa" (some 7)
    [("0xa", some 5)] [] (by decide) (by decide)

theorem lowerHexChar_idem (c : Char) :
    lowerHexChar (lowerHexChar c) = lowerHexChar c := by
  by_cases h1 : c = 'A'
  · subst h1; rfl
  by_cases h2 : c = 'B'
  · subst h2; rfl
  by_cases h3 : c = 'C'
  · subst h3; rfl
  by_cases h4 : c = 'D'
  · subst h4; rfl
  by_cases h5 : c = 'E'
  · subst h5; rfl
  by_cases h6 : c = 'F'
  · subst h6; rfl
  by_cases h7 : c = 'X'
  · subst h7; rfl
  have hc : lowerHexChar c = c := by
    unfold lowerHexChar
    rw [if_neg h1, if_neg h2, if_neg h3, if_neg h4, if_neg h5, if_neg h6,
      if_neg h7]
  rw [hc, hc]

theorem getAddress_idem (s : String) :
    getAddress (getAddress s) = getAddress s := by
  unfold getAddress
  exact congrArg String.mk
    (by rw [List.map_map]
        exact List.map_congr_left (fun c _ => lowerHexChar_idem c))

theorem getAddress_zeroAddress : getAddress zeroAddress = zeroAddress := rfl

theorem keysA_foldl_stepOf_subset {β α : Type} (ent : String → β → Option α) :
    ∀ (l : List (String × β)) (m : AMap α) (a : String),
      a ∈ keysA (l.foldl (stepOf ent) m) →
      a ∈ keysA m ∨ a ∈ l.map Prod.fst := by
  intro l
  induction l with
  | nil => exact fun m a h => Or.inl h
  | cons x xs ih =>
    intro m a h
    rw [List.foldl_cons] at h
    rcases ih _ a h with h' | h'
    · unfold stepOf at h'
      cases hent : ent x.1 x.2 with
      | none =>
        rw [hent] at h'
        exact Or.inl h'
      | some e =>
        rw [hent] at h'
        rcases mem_keysA_insertA h' with h'' | h''
        · exact Or.inl h''
        · exact Or.inr (by rw [List.map_cons, h'']; exact List.mem_cons_self _ _)
    · exact Or.inr (List.mem_cons_of_mem _ h')

theorem alchemyTokenFold_keys_canon (tdOf : AMap Token) :
    ∀ (items : List (String × Nat)) (m : AMap FormattedTokenBalance),
      (∀ k ∈ keysA m, getAddress k = k) →
      ∀ k ∈ keysA (items.foldl (alchemyTokenStep tdOf) m), getAddress k = k := by
  intro items
  induction items with
  | nil => exact fun m hm => hm
  | cons item rest ih =>
    intro m hm k hk
    rw [List.foldl_cons] at hk
    refine ih _ ?_ k hk
    intro k' hk'
    unfold alchemyTokenStep at hk'
    cases hlk : lookupA tdOf item.1 with
    | none => rw [hlk] at hk'; exact hm k' hk'
    | some td =>
      rw [hlk] at hk'
      rcases mem_keysA_insertA hk' with h' | h'
      · exact hm k' h'
      · rw [h']
        exact getAddress_idem item.1

theorem alchemyLoop_keys_canon (c : Nat → Option String) (ci : Nat)
    (tdOf : AMap Token) (eth : Nat) (api : Nat → AlchemyPage) :
    ∀ (fuel n : Nat) (trace t : FetchTrace),
      (∀ k ∈ keysA trace.balances, getAddress k = k) →
      alchemyLoop c ci tdOf eth api fuel n trace = some t →
      ∀ k ∈ keysA t.balances, getAddress k = k := by
  intro fuel
  induction fuel with
  | zero => intro n trace t _ h; exact Option.noConfusion h
  | succ fuel ih =>
    intro n trace t htrace h
    rw [alchemyLoop] at h
    have hpage : ∀ k ∈ keysA (alchemyProcessPage c ci tdOf (n = 0) eth (api n)
        trace.balances), getAddress k = k := by
      unfold alchemyProcessPage
      apply alchemyTokenFold_keys_canon tdOf
      by_cases hn : (n = 0 : Prop)
      · intro k hk
        rw [if_pos (by simp [hn])] at hk
        rcases mem_keysA_insertA hk with h' | h'
        · exact htrace k h'
        · rw [h']
          exact getAddress_zeroAddress
      · intro k hk
        rw [if_neg (by simp [hn])] at hk
        exact htrace k hk
    by_cases hkey : (api n).pageKey = ""
    · rw [if_pos hkey] at h
      cases h
      exact hpage
    · rw [if_neg hkey] at h
      exact ih (n + 1) _ t hpage h

theorem keysA_processPlain_subset (c : Nat → Option String) (ci : Nat)
    (td : AMap Token) (ts : List String) (rs : List (Option Nat)) (a : String)
    (h : a ∈ keysA (processBalanceMulticallResponse c ci ts td rs [])) :
    a ∈ ts := by
  unfold processBalanceMulticallResponse at h
  rw [show plainBalanceStep c ci td = stepOf (plainEnt c ci td) from
    funext fun m => funext fun x => plainBalanceStep_eq c ci td m x] at h
  rcases keysA_foldl_stepOf_subset _ _ _ _ h with h' | h'
  · exact absurd h' (by simp [keysA])
  · exact (map_fst_zip_sublist ts rs).mem h'

theorem keysA_processV1_subset (c : Nat → Option String) (ci : Nat)
    (td : AMap Token) (ts : List String) (rs : List (Option Nat)) (a : String)
    (h : a ∈ keysA (processSplitBalanceMulticallResponseV1 c ci ts td rs [])) :
    a ∈ ts := by
  unfold processSplitBalanceMulticallResponseV1 at h
  rw [show splitV1BalanceStep c ci td = stepOf (splitV1Ent c ci td) from
    funext fun m => funext fun x => splitV1BalanceStep_eq c ci td m x] at h
  rcases keysA_foldl_stepOf_subset _ _ _ _ h with h' | h'
  · exact absurd h' (by simp [keysA])
  · exact (map_fst_zip_sublist ts rs).mem h'

theorem keysA_processV2_subset (c : Nat → Option String) (ci : Nat)
    (td : AMap Token) (ts : List String)
    (rs : List (Option (Option Nat × Option Nat)))
    (out : AMap FormattedTokenBalance) (a : String)
    (hok : processSplitBalanceMulticallResponseV2 c ci ts td rs [] =
      Except.ok out) (h : a ∈ keysA out) : a ∈ ts := by
  unfold processSplitBalanceMulticallResponseV2 at hok
  have hout := foldlM_splitV2_ok_imp c ci td _ _ _ hok
  subst hout
  rcases keysA_foldl_stepOf_subset _ _ _ _ h with h' | h'
  · exact absurd h' (by simp [keysA])
  · exact (map_fst_zip_sublist ts rs).mem h'

/-- C9 counterexample: `fetchActiveBalances` uses an input token identifier in
non-canonical casing directly as an output key, without normalizing it with
`getAddress` — so not every key of every returned mapping is checksummed. -/
theorem checksummedKeys_counterexample :
    "0x000000000000000000000000000000000000000A" ∈
      keysA (fetchActiveBalances (fun _ => none) 1
        ["0x000000000000000000000000000000000000000A"]
        [(some "TOK", some 6)] [some 5]) ∧
    getAddress "0x000000000000000000000000000000000000000A" ≠
      "0x000000000000000000000000000000000000000A" := by
  exact ⟨by decide, by decide⟩

/-- C9 amended: `fetchSplitActiveBalances` (both versions) and
`fetchContractBalancesWithAlchemy` normalize every output key with
`getAddress` (every key is a `getAddress` fixed point), while
`fetchActiveBalances` applies no normalization: its keys are the input token
identifiers exactly as given. -/
theorem checksummedKeys_spec :
    (∀ (c : Nat → Option String) (ci : Nat) (fullTokenList : List String)
        (tdResp : List (Option String × Option Nat))
        (mcResp : List (Option Nat)) (k : String),
        k ∈ keysA (fetchSplitActiveBalancesV1 c ci fullTokenList tdResp mcResp) →
        getAddress k = k) ∧
    (∀ (c : Nat → Option String) (ci : Nat) (fullTokenList : List String)
        (tdResp : List (Option String × Option Nat))
        (mcResp : List (Option (Option Nat × Option Nat)))
        (out : AMap FormattedTokenBalance) (k : String),
        fetchSplitActiveBalancesV2 c ci fullTokenList tdResp mcResp =
          Except.ok out →
        k ∈ keysA out → getAddress k = k) ∧
    (∀ (c : Nat → Option String) (ci : Nat) (tdOf : AMap Token) (eth : Nat)
        (api : Nat → AlchemyPage) (fuel : Nat) (t : FetchTrace) (k : String),
        fetchContractBalancesWithAlchemy c ci tdOf eth api fuel = some t →
        k ∈ keysA t.balances → getAddress k = k) ∧
    (∀ (c : Nat → Option String) (ci : Nat) (fullTokenList : List String)
        (tdResp : List (Option String × Option Nat))
        (mcResp : List (Option Nat)) (k : String),
        k ∈ keysA (fetchActiveBalances c ci fullTokenList tdResp mcResp) →
        k ∈ fullTokenList) := by
  refine ⟨?_, ?_, ?_, ?_⟩
  · intro c ci fullTokenList tdResp mcResp k hk
    have hk' : k ∈ keysA (processSplitBalanceMulticallResponseV1 c ci
        (fullTokenList.map getAddress)
        (fetchTokenData ((fullTokenList.map getAddress).filter
          (fun token => token ≠ zeroAddress)) tdResp) mcResp []) := hk
    have hmem := keysA_processV1_subset _ _ _ _ _ _ hk'
    obtain ⟨t, _, rfl⟩ := List.mem_map.mp hmem
    exact getAddress_idem t
  · intro c ci fullTokenList tdResp mcResp out k hok hk
    have hok' : processSplitBalanceMulticallResponseV2 c ci
        (fullTokenList.map getAddress)
        (fetchTokenData ((fullTokenList.map getAddress).filter
          (fun token => token ≠ zeroAddress)) tdResp) mcResp [] =
        Except.ok out := hok
    have hmem := keysA_processV2_subset _ _ _ _ _ _ _ hok' hk
    obtain ⟨t, _, rfl⟩ := List.mem_map.mp hmem
    exact getAddress_idem t
  · intro c ci tdOf eth api fuel t k hrun hk
    unfold fetchContractBalancesWithAlchemy at hrun
    exact alchemyLoop_keys_canon c ci tdOf eth api fuel 0 _ t
      (by simp [keysA]) hrun k hk
  · intro c ci fullTokenList tdResp mcResp k hk
    have hk' : k ∈ keysA (processBalanceMulticallResponse c ci fullTokenList
        (fetchTokenData (fullTokenList.filter
          (fun token => token ≠ zeroAddress)) tdResp) mcResp []) := hk
    exact keysA_processPlain_subset _ _ _ _ _ _ hk' 

/-- Witness for the amended C9 at concrete inputs: the split fetcher
normalizes the mixed-case input before keying, the Alchemy fetcher only emits
normalized keys, and the plain fetcher's keys come verbatim from the input
list. -/
theorem checksummedKeys_spec_witness :
    getAddress "0x000000000000000000000000000000000000000a" =
      "0x000000000000000000000000000000000000000a" ∧
    getAddress zeroAddress = zeroAddress ∧
    "0x000000000000000000000000000000000000000A" ∈
      ["0x000000000000000000000000000000000000000A"] := by
  refine ⟨?_, ?_, ?_⟩
  · exact checksummedKeys_spec.1 (fun _ => none) 1
      ["0x000000000000000000000000000000000000000A"] [(some "TOK", some 6)]
      [some 5] "0x000000000000000000000000000000000000000a" (by decide)
  · exact checksummedKeys_spec.2.2.1 (fun _ => none) 1 [] 9
      (fun _ => ⟨[], ""⟩) 1 ⟨1, 1, [(zeroAddress,
        ⟨9, fromBigIntToTokenValue 9 18, "ETH", 18⟩)]⟩ zeroAddress
      (by decide) (by decide)
  · exact checksummedKeys_spec.2.2.2 (fun _ => none) 1
      ["0x000000000000000000000000000000000000000A"] [(some "TOK", some 6)]
      [some 5] "0x000000000000000000000000000000000000000A" (by decide)

theorem alchemyLoop_counts (c : Nat → Option String) (ci : Nat)
    (tdOf : AMap Token) (eth : Nat) (api : Nat → AlchemyPage) :
    ∀ (k fuel n : Nat) (trace : FetchTrace),
      (∀ i, i < k → (api (n + i)).pageKey ≠ "") → (api (n + k)).pageKey = "" →
      k < fuel →
      ∃ t, alchemyLoop c ci tdOf eth api fuel n trace = some t ∧
        t.nativeRequests =
          trace.nativeRequests + (if n = 0 then 1 else 0) ∧
        t.tokenRequests = trace.tokenRequests + (k + 1) := by
  intro k
  induction k with
  | zero =>
    intro fuel n trace _ hk hfuel
    cases fuel with
    | zero => exact absurd hfuel (by omega)
    | succ f =>
      rw [alchemyLoop]
      rw [Nat.add_zero] at hk
      rw [if_pos hk]
      exact ⟨_, rfl, rfl, rfl⟩
  | succ k ih =>
    intro fuel n trace hlt hk hfuel
    cases fuel with
    | zero => exact absurd hfuel (by omega)
    | succ f =>
      rw [alchemyLoop]
      have h0 : (api n).pageKey ≠ "" := by
        have := hlt 0 (Nat.succ_pos k)
        rwa [Nat.add_zero] at this
      rw [if_neg h0]
      have hlt' : ∀ i, i < k → (api (n + 1 + i)).pageKey ≠ "" := by
        intro i hi
        have := hlt (i + 1) (Nat.succ_lt_succ hi)
        rwa [show n + (i + 1) = n + 1 + i from by omega] at this
      have hk' : (api (n + 1 + k)).pageKey = "" := by
        rwa [show n + (k + 1) = n + 1 + k from by omega] at hk
      obtain ⟨t, hrun, hn, htk⟩ := ih f (n + 1) _ hlt' hk' (by omega)
      refine ⟨t, hrun, ?_, ?_⟩
      · rw [hn]
        have hone : (if n + 1 = 0 then 1 else 0) = 0 := by simp
        rw [hone, Nat.add_zero]
      · rw [htk]
        show trace.tokenRequests + 1 + (k + 1) = trace.tokenRequests + (k + 1 + 1)
        omega

theorem alchemyLoop_unbounded (c : Nat → Option String) (ci : Nat)
    (tdOf : AMap Token) (eth : Nat) (api : Nat → AlchemyPage) :
    ∀ (fuel n : Nat) (trace : FetchTrace),
      (∀ i, i < fuel → (api (n + i)).pageKey ≠ "") →
      alchemyLoop c ci tdOf eth api fuel n trace = none := by
  intro fuel
  induction fuel with
  | zero => intro n trace _; rfl
  | succ f ih =>
    intro n trace h
    rw [alchemyLoop]
    have h0 : (api n).pageKey ≠ "" := by
      have := h 0 (Nat.succ_pos f)
      rwa [Nat.add_zero] at this
    rw [if_neg h0]
    apply ih
    intro i hi
    have := h (i + 1) (Nat.succ_lt_succ hi)
    rwa [show n + (i + 1) = n + 1 + i from by omega] at this

/-- C7: when the first page whose returned cursor is empty is page `k`, the
fetcher (run with enough fuel) terminates having issued exactly one
native-balance request (on the first iteration only) and exactly one
token-balance request per page (`k + 1` in total); and the loop has no bound
other than the cursor: as long as every cursor seen is non-empty it keeps
iterating past any fuel bound. -/
theorem alchemyPagination_spec :
    (∀ (c : Nat → Option String) (ci : Nat) (tdOf : AMap Token) (eth : Nat)
        (api : Nat → AlchemyPage) (k fuel : Nat),
        (∀ i, i < k → (api i).pageKey ≠ "") → (api k).pageKey = "" →
        k < fuel →
        ∃ t, fetchContractBalancesWithAlchemy c ci tdOf eth api fuel = some t ∧
          t.nativeRequests = 1 ∧ t.tokenRequests = k + 1) ∧
    (∀ (c : Nat → Option String) (ci : Nat) (tdOf : AMap Token) (eth : Nat)
        (api : Nat → AlchemyPage) (n : Nat),
        (∀ i, i ≤ n → (api i).pageKey ≠ "") →
        fetchContractBalancesWithAlchemy c ci tdOf eth api (n + 1) = none) := by
  constructor
  · intro c ci tdOf eth api k fuel hlt hk hfuel
    unfold fetchContractBalancesWithAlchemy
    obtain ⟨t, hrun, hn, htk⟩ :=
      alchemyLoop_counts c ci tdOf eth api k fuel 0 ⟨0, 0, []⟩
        (fun i hi => by rw [Nat.zero_add]; exact hlt i hi)
        (by rw [Nat.zero_add]; exact hk) hfuel
    refine ⟨t, hrun, ?_, ?_⟩
    · rw [hn]
      rfl
    · rw [htk]
      exact Nat.zero_add _
  · intro c ci tdOf eth api n h
    unfold fetchContractBalancesWithAlchemy
    apply alchemyLoop_unbounded
    intro i hi
    rw [Nat.zero_add]
    exact h i (by omega)

/-- Witness for C7 at a concrete mock API: cursors are non-empty for pages 0
and 1 and empty for page 2, so the run issues one native request and three
token requests; with every cursor non-empty the loop exhausts any fuel. -/
theorem alchemyPagination_spec_witness :
    (∃ t, fetchContractBalancesWithAlchemy (fun _ => none) 1 [] 9
        (fun i => ⟨[], if i < 2 then "next" else ""⟩) 5 = some t ∧
        t.nativeRequests = 1 ∧ t.tokenRequests = 2 + 1) ∧
    fetchContractBalancesWithAlchemy (fun _ => none) 1 [] 9
        (fun _ => ⟨[], "next"⟩) (2 + 1) = none := by
  constructor
  · exact alchemyPagination_spec.1 (fun _ => none) 1 [] 9
      (fun i => ⟨[], if i < 2 then "next" else ""⟩) 2 5 (by decide) (by decide)
      (by decide)
  · exact alchemyPagination_spec.2 (fun _ => none) 1 [] 9
      (fun _ => ⟨[], "next"⟩) 2 (by decide)

end SplitsSdk
